import Mathlib

/-!
Verification development for the scholarship submission-processing pipeline.

The Python sources are shallowly embedded:
* Python strings are Lean `String` (operated on through their `List Char` data);
* Python floats are exact rationals (`Rat`); the builtin `float(str)` parser,
  which is external to the repository, is passed as an explicit parameter
  `pyFloat : List Char → Option Rat` (`none` models a raised `ValueError`);
  `pyFloatInt` below is a concrete instance agreeing with Python on
  optionally-signed integer literals;
* Python dicts used as configuration are association lists in declaration
  order; dict item assignment is `dictInsert`;
* fallible external calls (document source listing, text extraction, the
  delegated scoring service) are modelled as `Except String` valued oracles
  carried in the input metadata;
* the persistence store is an explicit `DB` state threaded through the
  workflow functions; raised exceptions escaping a call are `Except.error`.
-/

/-- Lower-case a string character by character (Python `str.lower` on the
ASCII inputs used by the classifier and grader). -/
def lowerStr (s : String) : String :=
  ⟨s.data.map Char.toLower⟩

/-- Python substring test `needle in hay` on character lists. -/
def infixOf (needle : List Char) : List Char → Bool
  | [] => needle.isEmpty
  | c :: t => needle.isPrefixOf (c :: t) || infixOf needle t

/-- Python `needle in hay` for strings. -/
def strIn (needle hay : String) : Bool :=
  infixOf needle.data hay.data

/-- Python `s.endswith(suffix)`. -/
def endsWithStr (s suf : String) : Bool :=
  suf.data.isSuffixOf s.data

/-- Python whitespace characters recognised by `str.strip()` (ASCII cases). -/
def isPyWS (c : Char) : Bool :=
  c = ' ' || c = '\t' || c = '\n' || c = '\r' || c = '\x0b' || c = '\x0c'

/-- Python `str.strip()` on character lists. -/
def pyStrip (l : List Char) : List Char :=
  ((l.dropWhile isPyWS).reverse.dropWhile isPyWS).reverse

/-- Split a character list at the first occurrence of a colon:
Python `line.split(":", 1)` returns `[before]` when no colon occurs and
`[before, after]` otherwise; we return the part before the first colon and
optionally the part after it. -/
def splitColon1 : List Char → List Char × Option (List Char)
  | [] => ([], none)
  | c :: t =>
    if c = ':' then ([], some t)
    else
      let r := splitColon1 t
      (c :: r.1, r.2)

/-- Python `response.split(chr(10))`: split into lines at every newline. -/
def splitLines : List Char → List (List Char)
  | [] => [[]]
  | c :: t =>
    if c = '\n' then [] :: splitLines t
    else
      match splitLines t with
      | [] => [[c]]
      | p :: ps => (c :: p) :: ps

/-- Parse an optionally-signed run of decimal digits into a natural number;
helper for `pyFloatInt`. -/
def digitsToNat : List Char → Option Nat
  | [] => none
  | l =>
    if l.all Char.isDigit then
      some (l.foldl (fun acc c => acc * 10 + (c.toNat - 48)) 0)
    else
      none

/-- Concrete model of Python `float(str)` restricted to optionally-signed
integer literals; it agrees with Python's parser on every string it accepts.
Theorems about the response parsers quantify over an arbitrary parser, so
nothing proved below depends on this restriction. -/
def pyFloatInt (l : List Char) : Option Rat :=
  match l with
  | '-' :: rest => (digitsToNat rest).map (fun n => -(n : Rat))
  | _ => (digitsToNat l).map (fun n => (n : Rat))

/-- Classification rules for one category (from `settings.DOCUMENT_CATEGORIES`). -/
structure CategoryRules where
  extensions : List String
  keywords : List String
deriving DecidableEq, Repr

/-- The configured category table, in declaration order
(`settings.DOCUMENT_CATEGORIES`). -/
def DOCUMENT_CATEGORIES : List (String × CategoryRules) :=
  [ ("essay", ⟨[".pdf", ".docx", ".txt"], ["essay", "personal statement"]⟩),
    ("transcript", ⟨[".pdf", ".xlsx"], ["transcript", "academic record", "gpa"]⟩),
    ("letter_of_recommendation", ⟨[".pdf", ".docx"], ["letter", "recommendation", "reference"]⟩),
    ("other", ⟨[], []⟩) ]

/-- The body of the per-category loop of `DocumentClassifier.classify`:
the extension loop returns the category when the lower-cased file name ends
with a configured extension and some keyword occurs in the lower-cased file
name or content; the second loop returns it on a keyword hit regardless of
extension.  Either way the loop body returns the category iff this test holds. -/
def catMatches (fl cl : String) (rules : CategoryRules) : Bool :=
  (rules.extensions.any (fun e =>
      endsWithStr fl e &&
      rules.keywords.any (fun k => strIn k fl || strIn k cl)))
  || rules.keywords.any (fun k => strIn k fl || strIn k cl)

/-- The category loop of `DocumentClassifier.classify`: skip the category
named `"other"`, return the first category whose rules match, default to
`"other"`. -/
def classifyGo (fl cl : String) : List (String × CategoryRules) → String
  | [] => "other"
  | (cat, rules) :: rest =>
    if cat = "other" then classifyGo fl cl rest
    else if catMatches fl cl rules then cat
    else classifyGo fl cl rest

/-- `DocumentClassifier.classify(file_name, mime_type, content)`.  The
`mimeType` argument is accepted and never read, exactly as in the source. -/
def classify (fileName : String) (mimeType : String) (content : String) : String :=
  classifyGo (lowerStr fileName) (lowerStr content) DOCUMENT_CATEGORIES

/-- Statement of the classification algorithm in the words of the spec
(C5): the first category in configured order, fallback excluded, for which
the file name or content contains a configured keyword, else the fallback
`"other"`.  Used only to be compared against `classify`. -/
def classifySpec (fileName content : String) : String :=
  match (DOCUMENT_CATEGORIES.filter (fun p => p.1 ≠ "other")).find?
      (fun p => p.2.keywords.any
        (fun k => strIn k (lowerStr fileName) || strIn k (lowerStr content))) with
  | some p => p.1
  | none => "other"

theorem catMatches_eq_keywordHit (fl cl : String) (rules : CategoryRules) :
    catMatches fl cl rules
      = rules.keywords.any (fun k => strIn k fl || strIn k cl) := by
  unfold catMatches
  cases h : rules.keywords.any (fun k => strIn k fl || strIn k cl) <;>
    simp [h]

theorem classifyGo_eq_find (fl cl : String)
    (L : List (String × CategoryRules)) :
    classifyGo fl cl L
      = (match (L.filter (fun p => p.1 ≠ "other")).find?
          (fun p => p.2.keywords.any (fun k => strIn k fl || strIn k cl)) with
        | some p => p.1
        | none => "other") := by
  induction L with
  | nil => rfl
  | cons hd tl ih =>
    obtain ⟨cat, rules⟩ := hd
    by_cases hcat : cat = "other"
    · simp [classifyGo, hcat, ih]
    · by_cases hm : catMatches fl cl rules
      · have hk := catMatches_eq_keywordHit fl cl rules
        rw [hm] at hk
        simp [classifyGo, hcat, hm, List.filter_cons, List.find?, hk.symm]
      · have hk := catMatches_eq_keywordHit fl cl rules
        rw [Bool.not_eq_true] at hm
        rw [hm] at hk
        simp [classifyGo, hcat, hm, ih, List.filter_cons, List.find?, hk.symm]

/-- C5: `classify` iterates the configured categories in configuration
order, excluding the fallback, returns the first category for which the
file name or content contains a configured keyword (case-insensitive
substring; the extension-plus-keyword rule returns the same category), and
returns the fallback `"other"` when no category matches; in particular the
two worked examples of the spec hold. -/
theorem classify_first_keyword_match :
    (∀ fileName mimeType content,
      classify fileName mimeType content = classifySpec fileName content)
    ∧ classify "Academic_Transcript.pdf" "application/pdf"
        "GPA: 3.9, Academic Record" = "transcript"
    ∧ classify "random_file.txt" "text/plain" "Some random content"
        = "other" := by
  refine ⟨fun fileName mimeType content => ?_, by decide, by decide⟩
  rw [classify, classifySpec, classifyGo_eq_find]

/-- C10: the `mime_type` argument has no influence on classification. -/
theorem classify_ignores_mime_type :
    ∀ fileName m1 m2 content,
      classify fileName m1 content = classify fileName m2 content :=
  fun _ _ _ _ => rfl

/-- One criterion of a rubric (from `settings.SCORING_RUBRIC`): a weight and
a maximal number of points (`max`). -/
structure Criterion where
  weight : Rat
  max : Rat
deriving DecidableEq, Repr

/-- A scoring rubric: overall `max_score` and named criteria in declaration
order. -/
structure Rubric where
  max_score : Rat
  criteria : List (String × Criterion)
deriving DecidableEq, Repr

/-- The configured rubric table (`settings.SCORING_RUBRIC`). -/
def SCORING_RUBRIC : List (String × Rubric) :=
  [ ("essay", ⟨100,
      [ ("clarity", ⟨1/4, 25⟩), ("relevance", ⟨1/4, 25⟩),
        ("depth", ⟨1/4, 25⟩), ("grammar", ⟨1/4, 25⟩) ]⟩),
    ("transcript", ⟨100,
      [ ("gpa", ⟨3/5, 60⟩), ("course_rigor", ⟨2/5, 40⟩) ]⟩),
    ("letter_of_recommendation", ⟨100,
      [ ("strength", ⟨1/2, 50⟩), ("specificity", ⟨1/2, 50⟩) ]⟩) ]

/-- Python dict item assignment `d[k] = v` on an association list: replace
the value in place when the key exists, else append the pair. -/
def dictInsert (k : String) (v : Rat) : List (String × Rat) → List (String × Rat)
  | [] => [(k, v)]
  | (k0, v0) :: t => if k0 = k then (k, v) :: t else (k0, v0) :: dictInsert k v t

/-- The dictionary returned by the grader (`grade_document` and helpers). -/
structure GradeResult where
  category : String
  total_score : Rat
  max_score : Rat
  criteria_scores : List (String × Rat)
  feedback : String
deriving DecidableEq, Repr

/-- Quality indicator words of `GradingAgent._grade_with_rules`. -/
def QUALITY_WORDS : List String :=
  ["quality", "excellent", "professional", "demonstrated"]

/-- Per-criterion score of `GradingAgent._grade_with_rules` before the final
clamp to the criterion maximum: half the maximum, plus a quarter when the
content exceeds 500 characters, plus fifteen percent on a quality keyword. -/
def ruleScore (content : String) (cmax : Rat) : Rat :=
  let s1 := cmax * (1/2)
  let s2 := if content.data.length > 500 then s1 + cmax * (1/4) else s1
  if QUALITY_WORDS.any (fun w => strIn w (lowerStr content)) then
    s2 + cmax * (3/20)
  else s2

/-- `GradingAgent._grade_with_rules(category, content, rubric)`. -/
def grade_with_rules (category content : String) (rubric : Rubric) : GradeResult :=
  let criteria_scores := rubric.criteria.foldl
    (fun acc p => dictInsert p.1 (min (ruleScore content p.2.max) p.2.max) acc) []
  { category := category
    total_score := (criteria_scores.map Prod.snd).sum
    max_score := rubric.max_score
    criteria_scores := criteria_scores
    feedback := "Rule-based grading: Document length "
      ++ toString content.data.length ++ " characters. Estimated "
      ++ category ++ " quality based on content analysis." }

/-- Loop state of `GradingAgent._parse_grading_response`. -/
structure ParseSt where
  total_score : Rat
  criteria_scores : List (String × Rat)
  feedback : List Char
  parsing_feedback : Bool
deriving DecidableEq, Repr

/-- One iteration of the line loop of
`GradingAgent._parse_grading_response`: the line is stripped; a `SCORE:`
line sets the total when the number parses; a `CRITERIA_SCORES:` line turns
feedback capture off; a `FEEDBACK:` line restarts feedback with the text
after the colon and turns capture on; otherwise a line containing a colon
and starting with neither `SCORE` nor `CRITERIA` is tried as a criterion
score, accepted only when the lower-cased name is a configured criterion;
otherwise a non-empty line is appended to feedback while capture is on. -/
def parseStep (pyFloat : List Char → Option Rat) (rubric : Rubric)
    (st : ParseSt) (rawLine : List Char) : ParseSt :=
  let line := pyStrip rawLine
  if ("SCORE:".data).isPrefixOf line then
    match pyFloat (pyStrip ((splitColon1 line).2.getD [])) with
    | some v => { st with total_score := v }
    | none => st
  else if ("CRITERIA_SCORES:".data).isPrefixOf line then
    { st with parsing_feedback := false }
  else if ("FEEDBACK:".data).isPrefixOf line then
    { st with feedback := pyStrip ((splitColon1 line).2.getD [])
              parsing_feedback := true }
  else if line.contains ':' && !(("SCORE".data).isPrefixOf line)
      && !(("CRITERIA".data).isPrefixOf line) then
    match (splitColon1 line).2 with
    | none => st
    | some after =>
      let criterion := lowerStr ⟨pyStrip (splitColon1 line).1⟩
      match pyFloat (pyStrip after) with
      | none => st
      | some sc =>
        if rubric.criteria.any (fun p => p.1 == criterion) then
          { st with criteria_scores := dictInsert criterion sc st.criteria_scores }
        else st
  else if st.parsing_feedback && !line.isEmpty then
    { st with feedback := st.feedback ++ ' ' :: line }
  else st

/-- `GradingAgent._parse_grading_response(category, response, rubric)`:
fold the line loop over the newline-split response and clamp the total from
above by the rubric maximum. -/
def parse_grading_response (pyFloat : List Char → Option Rat)
    (category : String) (response : String) (rubric : Rubric) : GradeResult :=
  let st := (splitLines response.data).foldl (parseStep pyFloat rubric)
    ⟨0, [], [], false⟩
  { category := category
    total_score := min st.total_score rubric.max_score
    max_score := rubric.max_score
    criteria_scores := st.criteria_scores
    feedback := ⟨pyStrip st.feedback⟩ }

/-- `GradingAgent.grade_document(category, content, file_name)`.
`apiKey` models whether `settings.OPENAI_API_KEY` is configured;
`aiOutcome` is the delegated scoring service's outcome (`Except.error`
models a raised exception, caught by the handler that returns the
zero/placeholder result; `Except.ok` carries the raw response text, which
`_grade_with_ai` strips before parsing). -/
def grade_document (apiKey : Bool) (aiOutcome : Except String String)
    (pyFloat : List Char → Option Rat)
    (category content fileName : String) : GradeResult :=
  match SCORING_RUBRIC.find? (fun p => p.1 == category) with
  | none =>
    ⟨category, 0, 100, [], "No scoring rubric available for this document type."⟩
  | some p =>
    let rubric := p.2
    bif apiKey then
      match aiOutcome with
      | .error e =>
        ⟨category, 0, rubric.max_score, [], "Error during grading: " ++ e⟩
      | .ok raw => parse_grading_response pyFloat category ⟨pyStrip raw.data⟩ rubric
    else grade_with_rules category content rubric

/-- Rubric lookup `self.rubrics[category]` guarded by
`category not in self.rubrics`. -/
def lookupRubric (category : String) : Option Rubric :=
  (SCORING_RUBRIC.find? (fun p => p.1 == category)).map Prod.snd


theorem dictInsert_mem {q : String × Rat} (k : String) (v : Rat)
    (l : List (String × Rat)) (h : q ∈ dictInsert k v l) :
    q = (k, v) ∨ q ∈ l := by
  induction l with
  | nil => simpa [dictInsert] using h
  | cons p t ih =>
    obtain ⟨k0, v0⟩ := p
    by_cases hk : k0 = k
    · simp only [dictInsert, if_pos hk, List.mem_cons] at h
      rcases h with h | h
      · exact Or.inl h
      · exact Or.inr (by simp [h])
    · simp only [dictInsert, if_neg hk, List.mem_cons] at h
      rcases h with h | h
      · exact Or.inr (by simp [h])
      · rcases ih h with h | h
        · exact Or.inl h
        · exact Or.inr (by simp [h])

theorem parseStep_criteria_cases (pyFloat : List Char → Option Rat)
    (rubric : Rubric) (st : ParseSt) (raw : List Char) :
    (parseStep pyFloat rubric st raw).criteria_scores = st.criteria_scores ∨
    ∃ c sc, (rubric.criteria.any (fun p => p.1 == c)) = true ∧
      (parseStep pyFloat rubric st raw).criteria_scores
        = dictInsert c sc st.criteria_scores := by
  unfold parseStep
  dsimp only
  repeat' split
  all_goals try exact Or.inl rfl
  rename_i hmem
  exact Or.inr ⟨_, _, hmem, rfl⟩

theorem parseStep_keys_sub (pyFloat : List Char → Option Rat)
    (rubric : Rubric) (st : ParseSt) (raw : List Char)
    (h : ∀ k ∈ st.criteria_scores.map Prod.fst, k ∈ rubric.criteria.map Prod.fst) :
    ∀ k ∈ (parseStep pyFloat rubric st raw).criteria_scores.map Prod.fst,
      k ∈ rubric.criteria.map Prod.fst := by
  intro k hk
  rcases parseStep_criteria_cases pyFloat rubric st raw with hc | ⟨c, sc, hmem, hc⟩
  · rw [hc] at hk
    exact h k hk
  · rw [hc] at hk
    obtain ⟨⟨k1, w⟩, hpair, rfl⟩ := List.mem_map.mp hk
    rcases dictInsert_mem _ _ _ hpair with heq | hin
    · obtain ⟨rfl, -⟩ := Prod.mk.injEq .. ▸ heq
      simp only [List.any_eq_true, beq_iff_eq] at hmem
      obtain ⟨p, hp, hpk⟩ := hmem
      exact List.mem_map.mpr ⟨p, hp, hpk⟩
    · exact h _ (List.mem_map.mpr ⟨(k1, w), hin, rfl⟩)

theorem parseFold_keys_sub (pyFloat : List Char → Option Rat)
    (rubric : Rubric) (lines : List (List Char)) :
    ∀ st : ParseSt,
      (∀ k ∈ st.criteria_scores.map Prod.fst, k ∈ rubric.criteria.map Prod.fst) →
      ∀ k ∈ (lines.foldl (parseStep pyFloat rubric) st).criteria_scores.map Prod.fst,
        k ∈ rubric.criteria.map Prod.fst := by
  induction lines with
  | nil => intro st h; exact h
  | cons l t ih =>
    intro st h
    exact ih _ (parseStep_keys_sub pyFloat rubric st l h)

theorem ruleScore_nonneg (content : String) (cmax : Rat) (h : 0 ≤ cmax) :
    0 ≤ ruleScore content cmax := by
  unfold ruleScore
  dsimp only
  split_ifs <;> linarith

theorem grade_with_rules_keys (category content : String) (rubric : Rubric) :
    ∀ k ∈ (grade_with_rules category content rubric).criteria_scores.map Prod.fst,
      k ∈ rubric.criteria.map Prod.fst := by
  unfold grade_with_rules
  dsimp only
  have main : ∀ (cs : List (String × Criterion)) (acc : List (String × Rat)),
      (∀ p ∈ cs, p.1 ∈ rubric.criteria.map Prod.fst) →
      (∀ k ∈ acc.map Prod.fst, k ∈ rubric.criteria.map Prod.fst) →
      ∀ k ∈ (cs.foldl
          (fun acc p => dictInsert p.1 (min (ruleScore content p.2.max) p.2.max) acc)
          acc).map Prod.fst,
        k ∈ rubric.criteria.map Prod.fst := by
    intro cs
    induction cs with
    | nil => intro acc _ hacc k hk; exact hacc k hk
    | cons p t ih =>
      intro acc hcs hacc k hk
      refine ih _ (fun q hq => hcs q (by simp [hq])) ?_ k hk
      intro k' hk'
      obtain ⟨⟨k1, w⟩, hpair, rfl⟩ := List.mem_map.mp hk'
      rcases dictInsert_mem _ _ _ hpair with heq | hin
      · obtain ⟨rfl, -⟩ := Prod.mk.injEq .. ▸ heq
        exact hcs p (by simp)
      · exact hacc _ (List.mem_map.mpr ⟨(k1, w), hin, rfl⟩)
  exact main rubric.criteria []
    (fun p hp => List.mem_map.mpr ⟨p, hp, rfl⟩) (by simp)

theorem grade_with_rules_total_nonneg (category content : String)
    (rubric : Rubric) (h : ∀ p ∈ rubric.criteria, 0 ≤ p.2.max) :
    0 ≤ (grade_with_rules category content rubric).total_score := by
  unfold grade_with_rules
  dsimp only
  have main : ∀ (cs : List (String × Criterion)) (acc : List (String × Rat)),
      (∀ p ∈ cs, 0 ≤ p.2.max) →
      (∀ w ∈ acc.map Prod.snd, 0 ≤ w) →
      ∀ w ∈ ((cs.foldl
          (fun acc p => dictInsert p.1 (min (ruleScore content p.2.max) p.2.max) acc)
          acc).map Prod.snd), 0 ≤ w := by
    intro cs
    induction cs with
    | nil => intro acc _ hacc w hw; exact hacc w hw
    | cons p t ih =>
      intro acc hcs hacc w hw
      refine ih _ (fun q hq => hcs q (by simp [hq])) ?_ w hw
      intro w' hw'
      obtain ⟨⟨k1, w1⟩, hpair, rfl⟩ := List.mem_map.mp hw'
      rcases dictInsert_mem _ _ _ hpair with heq | hin
      · obtain ⟨-, rfl⟩ := Prod.mk.injEq .. ▸ heq
        exact le_min (ruleScore_nonneg content p.2.max (hcs p (by simp)))
          (hcs p (by simp))
      · exact hacc _ (List.mem_map.mpr ⟨(k1, w1), hin, rfl⟩)
  exact List.sum_nonneg (main rubric.criteria [] h (by simp))

theorem lookupRubric_facts (category : String) (rubric : Rubric)
    (h : lookupRubric category = some rubric) :
    0 ≤ rubric.max_score ∧ (∀ p ∈ rubric.criteria, 0 ≤ p.2.max) := by
  unfold lookupRubric at h
  rw [Option.map_eq_some'] at h
  obtain ⟨p, hfind, hp⟩ := h
  have hmem := List.mem_of_find?_eq_some hfind
  subst hp
  simp only [SCORING_RUBRIC, List.mem_cons, List.not_mem_nil, or_false] at hmem
  rcases hmem with rfl | rfl | rfl <;> exact ⟨by norm_num, by decide⟩

/-- C4 counterexample: with the configured essay rubric, a delegated-path
service response `SCORE: -5` yields `total_score = -5`, so the claimed
`0 ≤ total_score` fails (only the upper bound is clamped by the parser). -/
theorem grade_negative_total_cex :
    (grade_document true (.ok "SCORE: -5") pyFloatInt
        "essay" "Some content" "essay.pdf").total_score = -5
    ∧ ¬ (0 ≤ (grade_document true (.ok "SCORE: -5") pyFloatInt
        "essay" "Some content" "essay.pdf").total_score) := by
  constructor
  · decide
  · decide

/-- C4 amended: for every category with a configured rubric and all inputs,
every key of `criteria_scores` is a configured criterion of that rubric;
in the rule-based path (no service configured) `0 ≤ total_score`; and in
the delegated path `total_score ≤ max_score` (the lower bound is not
enforced there, as the counterexample shows). -/
theorem grade_bounds_amended (pyFloat : List Char → Option Rat)
    (category : String) (rubric : Rubric)
    (h : lookupRubric category = some rubric)
    (content fileName : String) (apiKey : Bool)
    (aiOutcome : Except String String) :
    (∀ k ∈ (grade_document apiKey aiOutcome pyFloat category content
        fileName).criteria_scores.map Prod.fst, k ∈ rubric.criteria.map Prod.fst)
    ∧ (apiKey = false →
        0 ≤ (grade_document apiKey aiOutcome pyFloat category content
          fileName).total_score)
    ∧ (apiKey = true →
        (grade_document apiKey aiOutcome pyFloat category content
          fileName).total_score ≤ rubric.max_score) := by
  obtain ⟨hmax, hcrit⟩ := lookupRubric_facts category rubric h
  unfold lookupRubric at h
  rw [Option.map_eq_some'] at h
  obtain ⟨p, hfind, hp⟩ := h
  unfold grade_document
  rw [hfind]
  subst hp
  dsimp only
  cases apiKey with
  | false =>
    exact ⟨grade_with_rules_keys category content p.2,
      fun _ => grade_with_rules_total_nonneg category content p.2 hcrit,
      fun hc => nomatch hc⟩
  | true =>
    cases aiOutcome with
    | error e =>
      refine ⟨by simp, ?_, ?_⟩
      · intro hc
        exact absurd hc (by decide)
      · intro _
        simpa using hmax
    | ok raw =>
      unfold parse_grading_response
      dsimp only
      refine ⟨?_, ?_, ?_⟩
      · exact parseFold_keys_sub pyFloat p.2 _ ⟨0, [], [], false⟩ (by simp)
      · intro hc
        exact absurd hc (by decide)
      · intro _
        exact min_le_right _ _

/-- Witness for the amended C4 theorem at the configured transcript rubric
with the rule-based path on a concrete input. -/
theorem grade_bounds_amended_witness :
    (∀ k ∈ (grade_document false (.ok "") pyFloatInt "transcript" "GPA 4.0"
        "t.pdf").criteria_scores.map Prod.fst,
      k ∈ (([("gpa", ⟨3/5, 60⟩), ("course_rigor", ⟨2/5, 40⟩)] :
        List (String × Criterion)).map Prod.fst))
    ∧ (false = false →
        0 ≤ (grade_document false (.ok "") pyFloatInt "transcript" "GPA 4.0"
          "t.pdf").total_score)
    ∧ (false = true →
        (grade_document false (.ok "") pyFloatInt "transcript" "GPA 4.0"
          "t.pdf").total_score ≤ (100 : Rat)) :=
  grade_bounds_amended pyFloatInt "transcript"
    ⟨100, [("gpa", ⟨3/5, 60⟩), ("course_rigor", ⟨2/5, 40⟩)]⟩
    rfl "GPA 4.0" "t.pdf" false (.ok "")

/-- C7: `grade_document` is modelled as a total function (no outcome
propagates an exception); with no configured rubric for the category it
returns exactly the fixed zero/default result with the "no rubric"
feedback, and when the delegated grading backend raises, the handler
returns the zero/placeholder result whose feedback reports the exception
text. -/
theorem grade_never_throws_degraded_results :
    (∀ (apiKey : Bool) (aiOutcome : Except String String)
        (pyFloat : List Char → Option Rat) (category content fileName : String),
      lookupRubric category = none →
      grade_document apiKey aiOutcome pyFloat category content fileName
        = ⟨category, 0, 100, [],
            "No scoring rubric available for this document type."⟩)
    ∧ (∀ (pyFloat : List Char → Option Rat)
        (category : String) (rubric : Rubric) (content fileName e : String),
      lookupRubric category = some rubric →
      grade_document true (.error e) pyFloat category content fileName
        = ⟨category, 0, rubric.max_score, [], "Error during grading: " ++ e⟩) := by
  constructor
  · intro apiKey aiOutcome pyFloat category content fileName h
    unfold lookupRubric at h
    rw [Option.map_eq_none'] at h
    unfold grade_document
    rw [h]
  · intro pyFloat category rubric content fileName e h
    unfold lookupRubric at h
    rw [Option.map_eq_some'] at h
    obtain ⟨p, hfind, hp⟩ := h
    unfold grade_document
    rw [hfind]
    subst hp
    rfl

/-- Witness for C7: the spec's worked example for an unconfigured category,
and a backend exception on the configured essay rubric. -/
theorem grade_never_throws_degraded_results_witness :
    grade_document false (.ok "") pyFloatInt "invalid_category" "Some content"
        "file.pdf"
      = ⟨"invalid_category", 0, 100, [],
          "No scoring rubric available for this document type."⟩
    ∧ grade_document true (.error "boom") pyFloatInt "essay" "Some content"
        "essay.pdf"
      = ⟨"essay", 0, 100, [], "Error during grading: boom"⟩ :=
  ⟨grade_never_throws_degraded_results.1 false (.ok "") pyFloatInt
      "invalid_category" "Some content" "file.pdf" rfl,
    grade_never_throws_degraded_results.2 pyFloatInt "essay"
      ⟨100, [ ("clarity", ⟨1/4, 25⟩), ("relevance", ⟨1/4, 25⟩),
        ("depth", ⟨1/4, 25⟩), ("grammar", ⟨1/4, 25⟩) ]⟩
      "Some content" "essay.pdf" "boom" rfl⟩

/-- The exact condition under which a stripped line, seen while feedback
capture is on, is appended to the feedback by
`GradingAgent._parse_grading_response`: it is non-empty and no earlier
branch of the elif chain claims it — it does not start with `SCORE:`,
`CRITERIA_SCORES:` or `FEEDBACK:`, and it is not a criterion-score
candidate (a line containing a colon that starts with neither `SCORE` nor
`CRITERIA`).  In particular a colon-containing line starting with `SCORE`
or `CRITERIA` without being the exact marker (such as `SCORE2: 5`) is
appended. -/
def appendsToFeedback (line : List Char) : Bool :=
  !line.isEmpty
  && !(("SCORE:".data).isPrefixOf line)
  && !(("CRITERIA_SCORES:".data).isPrefixOf line)
  && !(("FEEDBACK:".data).isPrefixOf line)
  && !(line.contains ':' && !(("SCORE".data).isPrefixOf line)
      && !(("CRITERIA".data).isPrefixOf line))

/-- Feedback accumulated by appending, space-joined, exactly the stripped
lines satisfying `appendsToFeedback`. -/
def spaceJoinFrom (fb : List Char) (ls : List (List Char)) : List Char :=
  ls.foldl (fun acc l =>
    if appendsToFeedback (pyStrip l) then acc ++ ' ' :: pyStrip l else acc) fb

theorem parseStep_capture_on (pyFloat : List Char → Option Rat)
    (rubric : Rubric) (st : ParseSt) (l : List Char)
    (hf : st.parsing_feedback = true)
    (hnc : ("CRITERIA_SCORES:".data).isPrefixOf (pyStrip l) = false)
    (hnf : ("FEEDBACK:".data).isPrefixOf (pyStrip l) = false) :
    (parseStep pyFloat rubric st l).feedback
      = (if appendsToFeedback (pyStrip l) then st.feedback ++ ' ' :: pyStrip l
        else st.feedback)
    ∧ (parseStep pyFloat rubric st l).parsing_feedback = true := by
  unfold parseStep
  dsimp only
  cases hs : ("SCORE:".data).isPrefixOf (pyStrip l) with
  | true =>
    have ha : appendsToFeedback (pyStrip l) = false := by
      unfold appendsToFeedback
      rw [hs]
      simp
    cases hv : pyFloat (pyStrip ((splitColon1 (pyStrip l)).2.getD [])) with
    | some v => simp [ha, hf]
    | none => simp [ha, hf]
  | false =>
    cases h4 : ((pyStrip l).contains ':' && !(("SCORE".data).isPrefixOf (pyStrip l))
        && !(("CRITERIA".data).isPrefixOf (pyStrip l))) with
    | true =>
      have ha : appendsToFeedback (pyStrip l) = false := by
        unfold appendsToFeedback
        rw [h4]
        simp
      cases hsp : (splitColon1 (pyStrip l)).2 with
      | none => simp [hs, hnc, hnf, h4, hsp, ha, hf]
      | some after =>
        cases hpf : pyFloat (pyStrip after) with
        | none => simp [hs, hnc, hnf, h4, hsp, hpf, ha, hf]
        | some sc =>
          by_cases hany : (rubric.criteria.any
              (fun p => p.1 == lowerStr ⟨pyStrip (splitColon1 (pyStrip l)).1⟩)) = true
          · simp [hs, hnc, hnf, h4, hsp, hpf, hany, ha, hf]
          · simp [hs, hnc, hnf, h4, hsp, hpf, hany, ha, hf]
    | false =>
      cases hE : (pyStrip l).isEmpty with
      | true =>
        have ha : appendsToFeedback (pyStrip l) = false := by
          unfold appendsToFeedback
          rw [hE]
          simp
        simp [hs, hnc, hnf, h4, hE, ha, hf]
      | false =>
        have ha : appendsToFeedback (pyStrip l) = true := by
          unfold appendsToFeedback
          rw [hE, hs, hnc, hnf, h4]
          simp
        simp [hs, hnc, hnf, h4, hE, ha, hf]

theorem parseFold_feedback (pyFloat : List Char → Option Rat)
    (rubric : Rubric) (lines : List (List Char)) :
    ∀ st : ParseSt, st.parsing_feedback = true →
      (∀ l ∈ lines, ("CRITERIA_SCORES:".data).isPrefixOf (pyStrip l) = false
        ∧ ("FEEDBACK:".data).isPrefixOf (pyStrip l) = false) →
      (lines.foldl (parseStep pyFloat rubric) st).feedback
          = spaceJoinFrom st.feedback lines
        ∧ (lines.foldl (parseStep pyFloat rubric) st).parsing_feedback = true := by
  induction lines with
  | nil =>
    intro st hf _
    exact ⟨rfl, hf⟩
  | cons l t ih =>
    intro st hf h
    obtain ⟨hstep_fb, hstep_pf⟩ := parseStep_capture_on pyFloat rubric st l hf
      (h l (by simp)).1 (h l (by simp)).2
    rw [List.foldl_cons]
    obtain ⟨hfb2, hpf2⟩ := ih (parseStep pyFloat rubric st l) hstep_pf
      (fun l' hl' => h l' (by simp [hl']))
    refine ⟨?_, hpf2⟩
    rw [hfb2, hstep_fb]
    rfl

/-- C8 counterexample: after a `FEEDBACK: good` line, the subsequent
non-empty line `note: nice` is not appended to the feedback (it is routed
to the criterion-score branch because it contains a colon), so the feedback
is `"good"` and not the claimed space-joined `"good note: nice"`. -/
theorem feedback_colon_line_not_appended_cex :
    (grade_document true (.ok "FEEDBACK: good\nnote: nice") pyFloatInt
      "essay" "c" "f").feedback = "good"
    ∧ ("good" : String) ≠ "good note: nice" := by
  constructor
  · decide
  · decide

/-- C8 amended: once a line starting with `FEEDBACK:` has been seen,
feedback is restarted with the text after its colon and capture turns on;
then, until a later `CRITERIA_SCORES:` line stops capture or a later
`FEEDBACK:` line restarts it, a subsequent non-empty line is appended,
space-joined, to the feedback exactly when no earlier branch of the elif
chain claims it: a line starting with `SCORE:` sets the total instead, and
a colon-containing line starting with neither `SCORE` nor `CRITERIA` is
tried as a criterion score instead; every other non-empty line — including
colon-containing lines such as `SCORE2: 5` — is appended. -/
theorem feedback_capture_amended (pyFloat : List Char → Option Rat)
    (rubric : Rubric) (st : ParseSt) (fbRaw : List Char)
    (lines : List (List Char))
    (hfb : ("FEEDBACK:".data).isPrefixOf (pyStrip fbRaw) = true)
    (hno : ∀ l ∈ lines, ("CRITERIA_SCORES:".data).isPrefixOf (pyStrip l) = false
        ∧ ("FEEDBACK:".data).isPrefixOf (pyStrip l) = false) :
    ((fbRaw :: lines).foldl (parseStep pyFloat rubric) st).feedback
      = spaceJoinFrom (pyStrip ((splitColon1 (pyStrip fbRaw)).2.getD [])) lines
    ∧ ((fbRaw :: lines).foldl
        (parseStep pyFloat rubric) st).parsing_feedback = true := by
  obtain ⟨rest, hrest⟩ := List.isPrefixOf_iff_prefix.mp hfb
  have hstep : parseStep pyFloat rubric st fbRaw
      = { st with feedback := pyStrip ((splitColon1 (pyStrip fbRaw)).2.getD [])
                  parsing_feedback := true } := by
    unfold parseStep
    dsimp only
    rw [← hrest]
    simp [List.isPrefixOf]
  rw [List.foldl_cons, hstep]
  exact parseFold_feedback pyFloat rubric lines _ rfl hno

/-- Witness for the amended C8 on a concrete mixed response: after
`FEEDBACK: good`, the line `SCORE2: 5` is appended (colon, but `SCORE`
prefix without the marker colon), `note: nice` is routed to the criterion
branch and dropped, the empty line is dropped, and `more` is appended. -/
theorem feedback_capture_amended_witness :
    ((("FEEDBACK: good".data)
        :: ["SCORE2: 5".data, "note: nice".data, "".data, "more".data]).foldl
        (parseStep pyFloatInt ⟨100, []⟩) ⟨0, [], [], false⟩).feedback
      = spaceJoinFrom
          (pyStrip ((splitColon1 (pyStrip "FEEDBACK: good".data)).2.getD []))
          ["SCORE2: 5".data, "note: nice".data, "".data, "more".data]
    ∧ ((("FEEDBACK: good".data)
        :: ["SCORE2: 5".data, "note: nice".data, "".data, "more".data]).foldl
        (parseStep pyFloatInt ⟨100, []⟩) ⟨0, [], [], false⟩).parsing_feedback
      = true :=
  feedback_capture_amended pyFloatInt ⟨100, []⟩ ⟨0, [], [], false⟩
    ("FEEDBACK: good".data)
    ["SCORE2: 5".data, "note: nice".data, "".data, "more".data]
    (by decide) (by decide)

/-- One iteration of the response loop of
`DocumentClassifier.classify_by_ai`: a line starting `category:` replaces
the category with the stripped text after the colon; a line starting
`confidence:` replaces the confidence when the number parses; other lines
are ignored. -/
def aiClassifyStep (pyFloat : List Char → Option Rat)
    (st : String × Rat) (line : List Char) : String × Rat :=
  if ("category:".data).isPrefixOf line then
    (⟨pyStrip ((splitColon1 line).2.getD [])⟩, st.2)
  else if ("confidence:".data).isPrefixOf line then
    match pyFloat (pyStrip ((splitColon1 line).2.getD [])) with
    | some v => (st.1, v)
    | none => st
  else st

/-- `DocumentClassifier.classify_by_ai(file_name, content)`.  `apiKey`
models whether `settings.OPENAI_API_KEY` is configured; `aiOutcome` the
delegated service call (`Except.error` a raised exception, caught by the
handler that falls back to the rule-based result); on success the stripped
response is split into lines and folded from the defaults
`("other", 1/2)`.  The rule-based fallback calls
`classify(file_name, content=content)`, i.e. with an empty mime type. -/
def classify_by_ai (apiKey : Bool) (aiOutcome : Except String String)
    (pyFloat : List Char → Option Rat)
    (fileName content : String) : String × Rat :=
  bif apiKey then
    match aiOutcome with
    | .error _ => (classify fileName "" content, 1/2)
    | .ok raw =>
      (splitLines (pyStrip raw.data)).foldl (aiClassifyStep pyFloat)
        ("other", 1/2)
  else (classify fileName "" content, 1/2)

theorem aiClassifyFold_default (pyFloat : List Char → Option Rat)
    (lines : List (List Char)) :
    ∀ st : String × Rat,
      (∀ l ∈ lines, ("category:".data).isPrefixOf l = false
        ∧ ("confidence:".data).isPrefixOf l = false) →
      lines.foldl (aiClassifyStep pyFloat) st = st := by
  induction lines with
  | nil => intro st _; rfl
  | cons l t ih =>
    intro st h
    obtain ⟨h1, h2⟩ := h l (by simp)
    rw [List.foldl_cons]
    have hstep : aiClassifyStep pyFloat st l = st := by
      unfold aiClassifyStep
      rw [h1, h2]
      simp
    rw [hstep]
    exact ih st (fun l' hl' => h l' (by simp [hl']))

/-- C9 counterexample: with the delegated path configured and a malformed
service response (no `category:` line), `classify_by_ai` returns the parse
defaults `("other", 0.5)` and not the rule-based classification, which for
`essay.pdf` with content `essay` is `"essay"`. -/
theorem classify_by_ai_malformed_cex :
    classify_by_ai true (.ok "garbage") pyFloatInt "essay.pdf" "essay"
      = ("other", 1/2)
    ∧ classify "essay.pdf" "" "essay" = "essay"
    ∧ ("other" : String) ≠ "essay" :=
  ⟨rfl, by decide, by decide⟩

/-- C9 amended: on a missing API key or a raised exception,
`classify_by_ai` returns the deterministic rule-based classification of the
same file name and content with confidence exactly 0.5; but a response in
which no line starts with `category:` or `confidence:` yields the parse
defaults `("other", 0.5)` rather than the rule-based result. -/
theorem classify_by_ai_fallback_amended :
    (∀ (aiOutcome : Except String String) (pyFloat : List Char → Option Rat)
        (fileName content : String),
      classify_by_ai false aiOutcome pyFloat fileName content
        = (classify fileName "" content, 1/2))
    ∧ (∀ (e : String) (pyFloat : List Char → Option Rat)
        (fileName content : String),
      classify_by_ai true (.error e) pyFloat fileName content
        = (classify fileName "" content, 1/2))
    ∧ (∀ (raw : String) (pyFloat : List Char → Option Rat)
        (fileName content : String),
      (∀ l ∈ splitLines (pyStrip raw.data),
        ("category:".data).isPrefixOf l = false
        ∧ ("confidence:".data).isPrefixOf l = false) →
      classify_by_ai true (.ok raw) pyFloat fileName content
        = ("other", 1/2)) := by
  refine ⟨fun _ _ _ _ => rfl, fun _ _ _ _ => rfl, ?_⟩
  intro raw pyFloat fileName content h
  unfold classify_by_ai
  dsimp only [cond_true]
  exact aiClassifyFold_default pyFloat _ _ h

/-- Witness for the amended C9 at the malformed response `garbage`. -/
theorem classify_by_ai_fallback_amended_witness :
    classify_by_ai true (.ok "garbage") pyFloatInt "a.txt" "b" = ("other", 1/2) :=
  classify_by_ai_fallback_amended.2.2 "garbage" pyFloatInt "a.txt" "b" (by decide)

/-- The fixed applicant-identity delimiter of the orchestrator (the Python
string literal used in `folder_name.split`). -/
def DELIM : List Char := [' ', '-', ' ']

/-- Python `folder_name.split(DELIM)`: split at every non-overlapping
occurrence of the three-character delimiter, scanning left to right. -/
def splitDelim : List Char → List (List Char)
  | [] => [[]]
  | ' ' :: '-' :: ' ' :: t => [] :: splitDelim t
  | c :: t =>
    match splitDelim t with
    | [] => [[c]]
    | p :: ps => (c :: p) :: ps

/-- Inverse of delimiter splitting: interleave the delimiter between the
parts; used to state that `splitDelim` decomposes its input. -/
def joinDelim : List (List Char) → List Char
  | [] => []
  | [p] => p
  | p :: ps => p ++ DELIM ++ joinDelim ps

/-- Applicant name derived from the container folder name by
`SubmissionWorkflow._process_single_submission`:
`folder_name.split(" - ")[0] if " - " in folder_name else folder_name`. -/
def applicantName (folderName : String) : String :=
  if strIn " - " folderName then ⟨(splitDelim folderName.data).headD []⟩
  else folderName

/-- Applicant email derived from the container folder name:
`folder_name.split(" - ")[1] if " - " in folder_name else ""`. -/
def applicantEmail (folderName : String) : String :=
  if strIn " - " folderName then ⟨(splitDelim folderName.data).getD 1 []⟩
  else ""

theorem splitDelim_ne_nil (s : List Char) : splitDelim s ≠ [] := by
  induction s using splitDelim.induct with
  | case1 => simp [splitDelim]
  | case2 t ih => simp [splitDelim]
  | case3 c t h hnil ih => exact absurd hnil ih
  | case4 c t h p ps heq ih => rw [splitDelim.eq_3 c t h, heq]; simp

theorem joinDelim_cons_head (c : Char) (p : List Char) (ps : List (List Char)) :
    joinDelim ((c :: p) :: ps) = c :: joinDelim (p :: ps) := by
  cases ps with
  | nil => rfl
  | cons q qs => rfl

theorem splitDelim_spec (s : List Char) :
    joinDelim (splitDelim s) = s
    ∧ ∀ p ∈ splitDelim s, infixOf DELIM p = false := by
  induction s using splitDelim.induct with
  | case1 =>
    refine ⟨rfl, ?_⟩
    intro p hp
    simp [splitDelim] at hp
    subst hp
    decide
  | case2 t ih =>
    obtain ⟨hj, hfree⟩ := ih
    obtain ⟨q, qs, hqs⟩ := List.exists_cons_of_ne_nil (splitDelim_ne_nil t)
    constructor
    · show joinDelim ([] :: splitDelim t) = ' ' :: '-' :: ' ' :: t
      rw [hqs]
      show [] ++ DELIM ++ joinDelim (q :: qs) = ' ' :: '-' :: ' ' :: t
      rw [← hqs, hj]
      rfl
    · intro p hp
      have hp' : p ∈ ([] :: splitDelim t : List (List Char)) := hp
      rcases List.mem_cons.mp hp' with rfl | hp2
      · decide
      · exact hfree p hp2
  | case3 c t h hnil ih => exact absurd hnil (splitDelim_ne_nil t)
  | case4 c t h p ps heq ih =>
    obtain ⟨hj, hfree⟩ := ih
    rw [heq] at hj hfree
    have hsplit : splitDelim (c :: t) = (c :: p) :: ps := by
      rw [splitDelim.eq_3 c t h, heq]
    have hpr : ∃ r, t = p ++ r := by
      cases ps with
      | nil => exact ⟨[], by simpa using hj.symm⟩
      | cons q' qs' =>
        refine ⟨DELIM ++ joinDelim (q' :: qs'), ?_⟩
        rw [← hj]
        show joinDelim (p :: q' :: qs') = p ++ (DELIM ++ joinDelim (q' :: qs'))
        show p ++ DELIM ++ joinDelim (q' :: qs') = p ++ (DELIM ++ joinDelim (q' :: qs'))
        rw [List.append_assoc]
    have hpre : DELIM.isPrefixOf (c :: p) = false := by
      cases hb : DELIM.isPrefixOf (c :: p) with
      | false => rfl
      | true =>
        obtain ⟨xs, hxs⟩ := List.isPrefixOf_iff_prefix.mp hb
        have hc : c = ' ' := by
          have := congrArg (fun l => l.headD 'x') hxs
          simpa [DELIM] using this.symm
        have hp2 : p = '-' :: ' ' :: xs := by
          have := congrArg List.tail hxs
          simpa [DELIM] using this.symm
        obtain ⟨r, hr⟩ := hpr
        exact absurd (h (xs ++ r) hc (by rw [hr, hp2]; simp)) id
    constructor
    · rw [hsplit, joinDelim_cons_head, hj]
    · intro q hq
      rw [hsplit] at hq
      rcases List.mem_cons.mp hq with rfl | hq2
      · show infixOf DELIM (c :: p) = false
        have hstep : infixOf DELIM (c :: p)
            = (DELIM.isPrefixOf (c :: p) || infixOf DELIM p) := rfl
        rw [hstep, hpre, hfree p (List.mem_cons_self p ps)]
        rfl
      · exact hfree q (List.mem_cons_of_mem p hq2)

theorem splitDelim_length_two (s : List Char) (hs : infixOf DELIM s = true) :
    2 ≤ (splitDelim s).length := by
  induction s using splitDelim.induct with
  | case1 => exact absurd hs (by decide)
  | case2 t ih =>
    have hlen : 0 < (splitDelim t).length :=
      List.length_pos.mpr (splitDelim_ne_nil t)
    show 2 ≤ ([] :: splitDelim t : List (List Char)).length
    simp only [List.length_cons]
    omega
  | case3 c t h hnil ih => exact absurd hnil (splitDelim_ne_nil t)
  | case4 c t h p ps heq ih =>
    have hpre : DELIM.isPrefixOf (c :: t) = false := by
      cases hb : DELIM.isPrefixOf (c :: t) with
      | false => rfl
      | true =>
        obtain ⟨xs, hxs⟩ := List.isPrefixOf_iff_prefix.mp hb
        have hc : c = ' ' := by
          have := congrArg (fun l => l.headD 'x') hxs
          simpa [DELIM] using this.symm
        have ht2 : t = '-' :: ' ' :: xs := by
          have := congrArg List.tail hxs
          simpa [DELIM] using this.symm
        exact absurd (h xs hc ht2) id
    have ht : infixOf DELIM t = true := by
      have hstep : infixOf DELIM (c :: t)
          = (DELIM.isPrefixOf (c :: t) || infixOf DELIM t) := rfl
      rw [hstep, hpre] at hs
      simpa using hs
    have h2 := ih ht
    rw [heq] at h2
    rw [splitDelim.eq_3 c t h, heq]
    simpa using h2

/-- C6 counterexample: for a folder name containing the delimiter twice,
the derived email is the segment between the first and second delimiter,
not the entire portion after the first occurrence as claimed. -/
theorem applicant_email_second_segment_cex :
    applicantName "John Doe - john@example.com - extra" = "John Doe"
    ∧ applicantEmail "John Doe - john@example.com - extra" = "john@example.com"
    ∧ ("john@example.com" : String) ≠ "john@example.com - extra" :=
  ⟨by decide, by decide, by decide⟩

/-- C6 amended: the folder name is split at every occurrence of the fixed
delimiter (the split parts are delimiter-free and reconstruct the name);
`applicant_name` is the first split segment — the portion before the first
occurrence — and `applicant_email` is the second split segment, the portion
between the first and second occurrences (everything after the first when
the delimiter occurs only once); when the delimiter is absent the whole
name is `applicant_name` and `applicant_email` is empty. -/
theorem applicant_identity_amended (folderName : String) :
    joinDelim (splitDelim folderName.data) = folderName.data
    ∧ (∀ p ∈ splitDelim folderName.data, infixOf DELIM p = false)
    ∧ (strIn " - " folderName = true →
        (applicantName folderName).data = (splitDelim folderName.data).headD []
        ∧ (applicantEmail folderName).data = (splitDelim folderName.data).getD 1 []
        ∧ 2 ≤ (splitDelim folderName.data).length)
    ∧ (strIn " - " folderName = false →
        applicantName folderName = folderName
        ∧ applicantEmail folderName = "") := by
  obtain ⟨hj, hfree⟩ := splitDelim_spec folderName.data
  refine ⟨hj, hfree, ?_, ?_⟩
  · intro h
    refine ⟨by simp [applicantName, h], by simp [applicantEmail, h], ?_⟩
    exact splitDelim_length_two folderName.data h
  · intro h
    exact ⟨by simp [applicantName, h], by simp [applicantEmail, h]⟩

/-- Witness for the amended C6 at a concrete folder name with one
delimiter occurrence. -/
theorem applicant_identity_amended_witness :
    (applicantName "A - B").data = (splitDelim "A - B".data).headD []
    ∧ (applicantEmail "A - B").data = (splitDelim "A - B".data).getD 1 []
    ∧ 2 ≤ (splitDelim "A - B".data).length :=
  (applicant_identity_amended "A - B").2.2.1 (by decide)

/-- A stored `Submission` row (`SubmissionORM` / `Submission` schema fields
used by the orchestrator). -/
structure SubmissionRec where
  id : Nat
  applicant_name : String
  applicant_email : String
  folderId : String
  status : String
  errorMessage : Option String
deriving DecidableEq, Repr

/-- A stored `Document` row. -/
structure DocumentRec where
  id : Nat
  submissionId : Nat
  name : String
  driveId : String
  mimeType : String
  category : String
  fileSize : Nat
  processed : Bool
deriving DecidableEq, Repr

/-- A stored `Score` row. -/
structure ScoreRec where
  id : Nat
  submissionId : Nat
  documentId : Nat
  category : String
  totalScore : Rat
  maxScore : Rat
  criteriaScores : List (String × Rat)
  feedback : String
deriving DecidableEq, Repr

/-- The persistence store: tables in insertion order plus the
monotonically-increasing primary-key counters the storage engine owns. -/
structure DB where
  submissions : List SubmissionRec
  documents : List DocumentRec
  scores : List ScoreRec
  nextSubmissionId : Nat
  nextDocumentId : Nat
  nextScoreId : Nat
deriving DecidableEq, Repr

/-- `DatabaseService.get_submission_by_folder_id`: first row whose natural
key matches. -/
def get_submission_by_folder_id (db : DB) (fid : String) : Option SubmissionRec :=
  db.submissions.find? (fun s => s.folderId == fid)

/-- `DatabaseService.create_submission`: insert a row with a fresh primary
key and return the id. -/
def create_submission (db : DB) (name email fid status : String) : DB × Nat :=
  ({ db with
      submissions := db.submissions ++
        [⟨db.nextSubmissionId, name, email, fid, status, none⟩]
      nextSubmissionId := db.nextSubmissionId + 1 },
   db.nextSubmissionId)

/-- `DatabaseService.update_submission_status(id, status, error_message)`:
set the status of the row with the given id; the error message is written
only when it is truthy (a non-empty string), otherwise left unchanged. -/
def update_submission_status (db : DB) (sid : Nat) (status : String)
    (errMsg : Option String) : DB :=
  { db with
      submissions := db.submissions.map (fun s =>
        if s.id = sid then
          { s with
              status := status
              errorMessage :=
                match errMsg with
                | some m => if m = "" then s.errorMessage else some m
                | none => s.errorMessage }
        else s) }

/-- `DatabaseService.create_document`: insert a row (not yet processed)
with a fresh primary key and return the id. -/
def create_document (db : DB) (sid : Nat) (name driveId mimeType category : String)
    (size : Nat) : DB × Nat :=
  ({ db with
      documents := db.documents ++
        [⟨db.nextDocumentId, sid, name, driveId, mimeType, category, size, false⟩]
      nextDocumentId := db.nextDocumentId + 1 },
   db.nextDocumentId)

/-- `DatabaseService.create_score`: insert a score row with a fresh primary
key (the returned id is unused by the workflow). -/
def create_score (db : DB) (sid docId : Nat) (g : GradeResult) : DB :=
  { db with
      scores := db.scores ++
        [⟨db.nextScoreId, sid, docId, g.category, g.total_score, g.max_score,
          g.criteria_scores, g.feedback⟩]
      nextScoreId := db.nextScoreId + 1 }

/-- `DatabaseService.update_document(document_id, processed=...)`: the one
field update the workflow performs. -/
def update_document_processed (db : DB) (docId : Nat) (processed : Bool) : DB :=
  { db with
      documents := db.documents.map (fun d =>
        if d.id = docId then { d with processed := processed } else d) }

/-- Where, if anywhere, a persistence call inside
`SubmissionWorkflow._process_document`'s try block raises. -/
inductive DocDbFail
  | ok
  | atCreateDocument
  | atCreateScore
  | atUpdateDocument
deriving DecidableEq, Repr

/-- Metadata of one source item together with the oracles for its external
calls: `extract` is the text extractor's outcome, `dbFail` the persistence
exception point inside the document try block, `aiOutcome` the delegated
grading service's outcome. -/
structure DocMeta where
  id : String
  name : String
  mimeType : String
  size : Nat
  extract : Except String String
  dbFail : DocDbFail
  aiOutcome : Except String String
deriving Repr

/-- One submission container as listed from the source, with the outcome of
`list_documents` for it as an oracle. -/
structure Folder where
  id : String
  name : String
  listDocs : Except String (List DocMeta)
deriving Repr

/-- Extracted content of a document: the inner try of `_process_document`
catches extraction errors and degrades to the empty string. -/
def contentOf (d : DocMeta) : String :=
  match d.extract with
  | .ok c => c
  | .error _ => ""

/-- `SubmissionWorkflow._process_document(submission_id, doc_metadata)`:
classify, create the Document row, grade and create a Score when the
category is not the fallback and the content non-empty, then mark the
document processed; the whole body is wrapped in a try/except, so on a
persistence exception the store keeps the effects made up to that point
and the function returns without propagating. -/
def processDocument (apiKey : Bool) (pyFloat : List Char → Option Rat)
    (sid : Nat) (d : DocMeta) (db : DB) : DB :=
  let content := contentOf d
  let category := classify d.name d.mimeType content
  match d.dbFail with
  | .atCreateDocument => db
  | .atCreateScore =>
    let r := create_document db sid d.name d.id d.mimeType category d.size
    if category ≠ "other" ∧ content ≠ "" then r.1
    else update_document_processed r.1 r.2 true
  | .atUpdateDocument =>
    let r := create_document db sid d.name d.id d.mimeType category d.size
    if category ≠ "other" ∧ content ≠ "" then
      create_score r.1 sid r.2
        (grade_document apiKey d.aiOutcome pyFloat category content d.name)
    else r.1
  | .ok =>
    let r := create_document db sid d.name d.id d.mimeType category d.size
    if category ≠ "other" ∧ content ≠ "" then
      update_document_processed
        (create_score r.1 sid r.2
          (grade_document apiKey d.aiOutcome pyFloat category content d.name))
        r.2 true
    else update_document_processed r.1 r.2 true

/-- `SubmissionWorkflow._process_single_submission(folder_id, folder_name,
existing)`: reuse the existing row (status `processing`) or create one from
the parsed folder name; list the documents (an `Except.error` models the
exception escaping the submission handler, with the store keeping the
partial state); process every document; finally mark the submission
`completed` and return its id. -/
def processSingleSubmission (apiKey : Bool) (pyFloat : List Char → Option Rat)
    (folderId folderName : String) (existing : Option SubmissionRec)
    (listDocs : Except String (List DocMeta)) (db : DB) :
    DB × Except String Nat :=
  let r : DB × Nat :=
    match existing with
    | some ex => (update_submission_status db ex.id "processing" none, ex.id)
    | none =>
      create_submission db (applicantName folderName)
        (applicantEmail folderName) folderId "processing"
  match listDocs with
  | .error e => (r.1, .error e)
  | .ok docs =>
    let db2 := docs.foldl (fun acc d => processDocument apiKey pyFloat r.2 d acc) r.1
    (update_submission_status db2 r.2 "completed" none, .ok r.2)

/-- One iteration of the batch loop of
`SubmissionWorkflow.process_submissions`: skip folders whose stored record
is already completed or in flight; otherwise process the submission,
collect its id on success, and on an escaping exception set the status of
the *existing* record (only) to `error` with the exception text. -/
def processFolder (apiKey : Bool) (pyFloat : List Char → Option Rat)
    (acc : DB × List Nat) (f : Folder) : DB × List Nat :=
  match get_submission_by_folder_id acc.1 f.id with
  | some ex =>
    if ex.status = "completed" ∨ ex.status = "processing" then acc
    else
      match processSingleSubmission apiKey pyFloat f.id f.name (some ex)
          f.listDocs acc.1 with
      | (db1, .ok sid) => (db1, acc.2 ++ [sid])
      | (db1, .error e) =>
        (update_submission_status db1 ex.id "error" (some e), acc.2)
  | none =>
    match processSingleSubmission apiKey pyFloat f.id f.name none
        f.listDocs acc.1 with
    | (db1, .ok sid) => (db1, acc.2 ++ [sid])
    | (db1, .error e) => (db1, acc.2)

/-- `SubmissionWorkflow.process_submissions(folder_id)`: fold the batch
loop over the listed submission folders, starting from the given store
state, returning the final store and the processed ids. -/
def process_submissions (apiKey : Bool) (pyFloat : List Char → Option Rat)
    (db : DB) (folders : List Folder) : DB × List Nat :=
  folders.foldl (processFolder apiKey pyFloat) (db, [])

/-- Document rows belonging to a submission id. -/
def docsFor (db : DB) (sid : Nat) : List DocumentRec :=
  db.documents.filter (fun d => d.submissionId == sid)

/-- Score rows belonging to a submission id. -/
def scoresFor (db : DB) (sid : Nat) : List ScoreRec :=
  db.scores.filter (fun s => s.submissionId == sid)

/-- Store well-formedness maintained by the storage engine: primary keys
are below the counters and submission ids identify their rows. -/
structure WF (db : DB) : Prop where
  subLt : ∀ s ∈ db.submissions, s.id < db.nextSubmissionId
  subInj : ∀ s ∈ db.submissions, ∀ t ∈ db.submissions, s.id = t.id → s = t
  docLt : ∀ d ∈ db.documents, d.id < db.nextDocumentId

theorem map_id_on {α : Type} (f : α → α) (l : List α)
    (h : ∀ x ∈ l, f x = x) : l.map f = l := by
  induction l with
  | nil => rfl
  | cons a t ih =>
    rw [List.map_cons, h a (by simp), ih (fun x hx => h x (by simp [hx]))]

theorem mem_update_submission_of_ne (db : DB) (sid : Nat) (st : String)
    (m : Option String) {s : SubmissionRec} (hs : s ∈ db.submissions)
    (hne : s.id ≠ sid) :
    s ∈ (update_submission_status db sid st m).submissions := by
  unfold update_submission_status
  dsimp only
  have hm := List.mem_map_of_mem (f := fun x : SubmissionRec =>
    if x.id = sid then
      { x with
          status := st
          errorMessage :=
            match m with
            | some m' => if m' = "" then x.errorMessage else some m'
            | none => x.errorMessage }
    else x) hs
  simpa [hne] using hm

theorem update_submission_status_mem_elim (db : DB) (sid : Nat) (st : String)
    (m : Option String) {s : SubmissionRec}
    (hs : s ∈ (update_submission_status db sid st m).submissions) :
    ∃ s0 ∈ db.submissions, s.id = s0.id
      ∧ ((s0.id = sid ∧ s.status = st) ∨ (s0.id ≠ sid ∧ s = s0)) := by
  unfold update_submission_status at hs
  dsimp only at hs
  obtain ⟨s0, hs0, rfl⟩ := List.mem_map.mp hs
  by_cases hid : s0.id = sid
  · exact ⟨s0, hs0, by simp [hid], Or.inl ⟨hid, by simp [hid]⟩⟩
  · exact ⟨s0, hs0, by simp [hid], Or.inr ⟨hid, by simp [hid]⟩⟩

theorem update_submission_status_sets (db : DB) (sid : Nat) (st : String)
    (m : Option String) :
    ∀ s ∈ (update_submission_status db sid st m).submissions,
      s.id = sid → s.status = st := by
  intro s hs hid
  obtain ⟨s0, hs0, heq, hcase⟩ := update_submission_status_mem_elim db sid st m hs
  rcases hcase with ⟨h1, h2⟩ | ⟨h1, rfl⟩
  · exact h2
  · exact absurd (heq ▸ hid) h1

theorem update_submission_status_mem_intro (db : DB) (sid : Nat) (st : String)
    (m : Option String) {s0 : SubmissionRec} (hs0 : s0 ∈ db.submissions)
    (hid : s0.id = sid) :
    ∃ s ∈ (update_submission_status db sid st m).submissions,
      s.id = sid ∧ s.status = st
      ∧ s.errorMessage =
          (match m with
           | some m' => if m' = "" then s0.errorMessage else some m'
           | none => s0.errorMessage) := by
  unfold update_submission_status
  dsimp only
  refine ⟨_, List.mem_map_of_mem _ hs0, ?_⟩
  rw [if_pos hid]
  exact ⟨hid, rfl, rfl⟩

theorem WF_update_submission (db : DB) (sid : Nat) (st : String)
    (m : Option String) (h : WF db) :
    WF (update_submission_status db sid st m) := by
  constructor
  · intro s hs
    obtain ⟨s0, hs0, heq, -⟩ := update_submission_status_mem_elim db sid st m hs
    rw [heq]
    exact h.subLt s0 hs0
  · intro s hs t ht hid
    unfold update_submission_status at hs ht
    dsimp only at hs ht
    obtain ⟨s0, hs0, rfl⟩ := List.mem_map.mp hs
    obtain ⟨t0, ht0, rfl⟩ := List.mem_map.mp ht
    have hid0 : s0.id = t0.id := by
      by_cases h1 : s0.id = sid <;> by_cases h2 : t0.id = sid <;>
        simp [h1, h2] at hid ⊢ <;> omega
    rw [h.subInj s0 hs0 t0 ht0 hid0]
  · exact h.docLt

theorem WF_create_submission (db : DB) (n e fid st : String) (h : WF db) :
    WF (create_submission db n e fid st).1 := by
  constructor
  · intro s hs
    unfold create_submission at hs
    dsimp only at hs
    rcases List.mem_append.mp hs with hs1 | hs2
    · have := h.subLt s hs1
      dsimp only [create_submission]
      omega
    · simp at hs2
      subst hs2
      dsimp only [create_submission]
      omega
  · intro s hs t ht hid
    unfold create_submission at hs ht
    dsimp only at hs ht
    rcases List.mem_append.mp hs with hs1 | hs1 <;>
      rcases List.mem_append.mp ht with ht1 | ht1
    · exact h.subInj s hs1 t ht1 hid
    · simp at ht1
      subst ht1
      have := h.subLt s hs1
      simp at hid
      omega
    · simp at hs1
      subst hs1
      have := h.subLt t ht1
      simp at hid
      omega
    · simp at hs1 ht1
      rw [hs1, ht1]
  · exact h.docLt

theorem docsAppendUpdate (l : List DocumentRec) (row : DocumentRec)
    (docId : Nat) (hrow : row.id = docId) (hold : ∀ x ∈ l, x.id ≠ docId) :
    (l ++ [row]).map (fun d =>
        if d.id = docId then { d with processed := true } else d)
      = l ++ [{ row with processed := true }] := by
  rw [List.map_append, map_id_on _ l (fun x hx => if_neg (hold x hx))]
  simp [hrow]


theorem processDocument_shape (apiKey : Bool) (pyFloat : List Char → Option Rat)
    (sid : Nat) (d : DocMeta) (db : DB)
    (hdoc : ∀ x ∈ db.documents, x.id < db.nextDocumentId) :
    ∃ (rows : List DocumentRec) (srows : List ScoreRec),
      (processDocument apiKey pyFloat sid d db).documents = db.documents ++ rows
      ∧ (processDocument apiKey pyFloat sid d db).scores = db.scores ++ srows
      ∧ (∀ x ∈ rows, x.submissionId = sid)
      ∧ (∀ s ∈ srows, s.submissionId = sid)
      ∧ (processDocument apiKey pyFloat sid d db).submissions = db.submissions
      ∧ (processDocument apiKey pyFloat sid d db).nextSubmissionId
          = db.nextSubmissionId
      ∧ db.nextDocumentId ≤ (processDocument apiKey pyFloat sid d db).nextDocumentId
      ∧ (∀ x ∈ rows, x.id < (processDocument apiKey pyFloat sid d db).nextDocumentId) := by
  have hold : ∀ x ∈ db.documents, x.id ≠ db.nextDocumentId :=
    fun x hx => Nat.ne_of_lt (hdoc x hx)
  set category := classify d.name d.mimeType (contentOf d) with hcat
  set g := grade_document apiKey d.aiOutcome pyFloat category (contentOf d) d.name
    with hg
  set row0 : DocumentRec :=
    ⟨db.nextDocumentId, sid, d.name, d.id, d.mimeType, category, d.size, false⟩
    with hrow0
  set rowT : DocumentRec :=
    ⟨db.nextDocumentId, sid, d.name, d.id, d.mimeType, category, d.size, true⟩
    with hrowT
  set sRow : ScoreRec :=
    ⟨db.nextScoreId, sid, db.nextDocumentId, g.category, g.total_score,
      g.max_score, g.criteria_scores, g.feedback⟩ with hsRow
  have hupd := docsAppendUpdate db.documents row0 db.nextDocumentId rfl hold
  have hrowT' : ({ row0 with processed := true } : DocumentRec) = rowT := rfl
  rw [hrowT'] at hupd
  cases hfail : d.dbFail with
  | atCreateDocument =>
    refine ⟨[], [], by simp [processDocument, hfail], by simp [processDocument, hfail],
      by simp, by simp, by simp [processDocument, hfail],
      by simp [processDocument, hfail], by simp [processDocument, hfail], by simp⟩
  | atCreateScore =>
    by_cases hcond : category ≠ "other" ∧ contentOf d ≠ ""
    · have hdb' : processDocument apiKey pyFloat sid d db
          = { db with
                documents := db.documents ++ [row0]
                nextDocumentId := db.nextDocumentId + 1 } := by
        simp only [processDocument, hfail, ← hcat, if_pos hcond, create_document]
      refine ⟨[row0], [], by simp [hdb'], by simp [hdb'], ?_, by simp,
        by rw [hdb'], by rw [hdb'], by rw [hdb']; exact Nat.le_succ _, ?_⟩
      · intro x hx; simp at hx; subst hx; rfl
      · intro x hx; simp at hx; subst hx; rw [hdb']; exact Nat.lt_succ_self _
    · have hdb' : processDocument apiKey pyFloat sid d db
          = { db with
                documents := db.documents ++ [rowT]
                nextDocumentId := db.nextDocumentId + 1 } := by
        simp only [processDocument, hfail, ← hcat, if_neg hcond,
          update_document_processed, create_document]
        rw [hupd]
      refine ⟨[rowT], [], by simp [hdb'], by simp [hdb'], ?_, by simp,
        by rw [hdb'], by rw [hdb'], by rw [hdb']; exact Nat.le_succ _, ?_⟩
      · intro x hx; simp at hx; subst hx; rfl
      · intro x hx; simp at hx; subst hx; rw [hdb']; exact Nat.lt_succ_self _
  | atUpdateDocument =>
    by_cases hcond : category ≠ "other" ∧ contentOf d ≠ ""
    · have hdb' : processDocument apiKey pyFloat sid d db
          = { db with
                documents := db.documents ++ [row0]
                scores := db.scores ++ [sRow]
                nextDocumentId := db.nextDocumentId + 1
                nextScoreId := db.nextScoreId + 1 } := by
        simp only [processDocument, hfail, ← hcat, ← hg, if_pos hcond,
          create_score, create_document]
      refine ⟨[row0], [sRow], by simp [hdb'], by simp [hdb'], ?_, ?_,
        by rw [hdb'], by rw [hdb'], by rw [hdb']; exact Nat.le_succ _, ?_⟩
      · intro x hx; simp at hx; subst hx; rfl
      · intro s hs; simp at hs; subst hs; rfl
      · intro x hx; simp at hx; subst hx; rw [hdb']; exact Nat.lt_succ_self _
    · have hdb' : processDocument apiKey pyFloat sid d db
          = { db with
                documents := db.documents ++ [row0]
                nextDocumentId := db.nextDocumentId + 1 } := by
        simp only [processDocument, hfail, ← hcat, if_neg hcond, create_document]
      refine ⟨[row0], [], by simp [hdb'], by simp [hdb'], ?_, by simp,
        by rw [hdb'], by rw [hdb'], by rw [hdb']; exact Nat.le_succ _, ?_⟩
      · intro x hx; simp at hx; subst hx; rfl
      · intro x hx; simp at hx; subst hx; rw [hdb']; exact Nat.lt_succ_self _
  | ok =>
    by_cases hcond : category ≠ "other" ∧ contentOf d ≠ ""
    · have hdb' : processDocument apiKey pyFloat sid d db
          = { db with
                documents := db.documents ++ [rowT]
                scores := db.scores ++ [sRow]
                nextDocumentId := db.nextDocumentId + 1
                nextScoreId := db.nextScoreId + 1 } := by
        simp only [processDocument, hfail, ← hcat, ← hg, if_pos hcond,
          update_document_processed, create_score, create_document]
        rw [hupd]
      refine ⟨[rowT], [sRow], by simp [hdb'], by simp [hdb'], ?_, ?_,
        by rw [hdb'], by rw [hdb'], by rw [hdb']; exact Nat.le_succ _, ?_⟩
      · intro x hx; simp at hx; subst hx; rfl
      · intro s hs; simp at hs; subst hs; rfl
      · intro x hx; simp at hx; subst hx; rw [hdb']; exact Nat.lt_succ_self _
    · have hdb' : processDocument apiKey pyFloat sid d db
          = { db with
                documents := db.documents ++ [rowT]
                nextDocumentId := db.nextDocumentId + 1 } := by
        simp only [processDocument, hfail, ← hcat, if_neg hcond,
          update_document_processed, create_document]
        rw [hupd]
      refine ⟨[rowT], [], by simp [hdb'], by simp [hdb'], ?_, by simp,
        by rw [hdb'], by rw [hdb'], by rw [hdb']; exact Nat.le_succ _, ?_⟩
      · intro x hx; simp at hx; subst hx; rfl
      · intro x hx; simp at hx; subst hx; rw [hdb']; exact Nat.lt_succ_self _

theorem processDocsFold_facts (apiKey : Bool) (pyFloat : List Char → Option Rat)
    (sid : Nat) (docs : List DocMeta) :
    ∀ db : DB, (∀ x ∈ db.documents, x.id < db.nextDocumentId) →
      ∃ (rows : List DocumentRec) (srows : List ScoreRec),
        (docs.foldl (fun acc d => processDocument apiKey pyFloat sid d acc) db).documents
            = db.documents ++ rows
        ∧ (docs.foldl (fun acc d => processDocument apiKey pyFloat sid d acc) db).scores
            = db.scores ++ srows
        ∧ (∀ x ∈ rows, x.submissionId = sid)
        ∧ (∀ s ∈ srows, s.submissionId = sid)
        ∧ (docs.foldl (fun acc d => processDocument apiKey pyFloat sid d acc) db).submissions
            = db.submissions
        ∧ (docs.foldl (fun acc d => processDocument apiKey pyFloat sid d acc) db).nextSubmissionId
            = db.nextSubmissionId
        ∧ (∀ x ∈ (docs.foldl (fun acc d => processDocument apiKey pyFloat sid d acc) db).documents,
            x.id < (docs.foldl (fun acc d => processDocument apiKey pyFloat sid d acc) db).nextDocumentId) := by
  induction docs with
  | nil =>
    intro db hdoc
    exact ⟨[], [], by simp, by simp, by simp, by simp, rfl, rfl, hdoc⟩
  | cons d t ih =>
    intro db hdoc
    obtain ⟨r1, s1, hd1, hs1, hr1, hsc1, hsub1, hnext1, hmono1, hlt1⟩ :=
      processDocument_shape apiKey pyFloat sid d db hdoc
    have hbound1 : ∀ x ∈ (processDocument apiKey pyFloat sid d db).documents,
        x.id < (processDocument apiKey pyFloat sid d db).nextDocumentId := by
      intro x hx
      rw [hd1] at hx
      rcases List.mem_append.mp hx with hx1 | hx2
      · exact lt_of_lt_of_le (hdoc x hx1) hmono1
      · exact hlt1 x hx2
    obtain ⟨r2, s2, hd2, hs2, hr2, hsc2, hsub2, hnext2, hbound2⟩ :=
      ih (processDocument apiKey pyFloat sid d db) hbound1
    rw [List.foldl_cons]
    refine ⟨r1 ++ r2, s1 ++ s2, ?_, ?_, ?_, ?_, ?_, ?_, hbound2⟩
    · rw [hd2, hd1, List.append_assoc]
    · rw [hs2, hs1, List.append_assoc]
    · intro x hx
      rcases List.mem_append.mp hx with hx1 | hx2
      · exact hr1 x hx1
      · exact hr2 x hx2
    · intro s hs
      rcases List.mem_append.mp hs with hs1 | hs2
      · exact hsc1 s hs1
      · exact hsc2 s hs2
    · rw [hsub2, hsub1]
    · rw [hnext2, hnext1]


theorem filter_append_none {α : Type} (p : α → Bool) (l r : List α)
    (h : ∀ x ∈ r, p x = false) : (l ++ r).filter p = l.filter p := by
  rw [List.filter_append]
  have hn : r.filter p = [] :=
    List.filter_eq_nil.mpr (fun a ha => by simp [h a ha])
  rw [hn, List.append_nil]

theorem WF_of_eq (db db' : DB) (h : WF db)
    (hsubs : db'.submissions = db.submissions)
    (hnext : db'.nextSubmissionId = db.nextSubmissionId)
    (hdoc : ∀ x ∈ db'.documents, x.id < db'.nextDocumentId) : WF db' := by
  constructor
  · rw [hsubs, hnext]
    exact h.subLt
  · rw [hsubs]
    exact h.subInj
  · exact hdoc

theorem fold_then_complete_preserves (apiKey : Bool)
    (pyFloat : List Char → Option Rat) (sid : Nat) (docs : List DocMeta)
    (db1 : DB) (sub : SubmissionRec)
    (hwf1 : WF db1) (hmem1 : sub ∈ db1.submissions) (hne : sid ≠ sub.id) :
    WF (update_submission_status
        (docs.foldl (fun acc d => processDocument apiKey pyFloat sid d acc) db1)
        sid "completed" none)
    ∧ sub ∈ (update_submission_status
        (docs.foldl (fun acc d => processDocument apiKey pyFloat sid d acc) db1)
        sid "completed" none).submissions
    ∧ docsFor (update_submission_status
        (docs.foldl (fun acc d => processDocument apiKey pyFloat sid d acc) db1)
        sid "completed" none) sub.id = docsFor db1 sub.id
    ∧ scoresFor (update_submission_status
        (docs.foldl (fun acc d => processDocument apiKey pyFloat sid d acc) db1)
        sid "completed" none) sub.id = scoresFor db1 sub.id := by
  obtain ⟨rows, srows, hd2, hs2, hr2, hsc2, hsub2, hnextsub2, hbound2⟩ :=
    processDocsFold_facts apiKey pyFloat sid docs db1 hwf1.docLt
  set db2 := docs.foldl (fun acc d => processDocument apiKey pyFloat sid d acc) db1
    with hdb2
  have hwf2 : WF db2 := WF_of_eq db1 db2 hwf1 hsub2 hnextsub2 hbound2
  refine ⟨WF_update_submission db2 sid "completed" none hwf2, ?_, ?_, ?_⟩
  · exact mem_update_submission_of_ne db2 sid "completed" none
      (by rw [hsub2]; exact hmem1) (fun hcon => hne hcon.symm)
  · have h1 : docsFor (update_submission_status db2 sid "completed" none) sub.id
        = docsFor db2 sub.id := rfl
    rw [h1, docsFor, hd2, filter_append_none _ _ _ (fun x hx => by
      have := hr2 x hx
      simp [this]
      exact fun hcon => hne (by rw [← hcon]))]
    rfl
  · have h1 : scoresFor (update_submission_status db2 sid "completed" none) sub.id
        = scoresFor db2 sub.id := rfl
    rw [h1, scoresFor, hs2, filter_append_none _ _ _ (fun s hs => by
      have := hsc2 s hs
      simp [this]
      exact fun hcon => hne (by rw [← hcon]))]
    rfl

theorem processSingleSubmission_preserves (apiKey : Bool)
    (pyFloat : List Char → Option Rat) (fid fname : String)
    (existing : Option SubmissionRec) (listDocs : Except String (List DocMeta))
    (db : DB) (sub : SubmissionRec)
    (hwf : WF db) (hmem : sub ∈ db.submissions)
    (hne : ∀ ex, existing = some ex → ex.id ≠ sub.id) :
    WF (processSingleSubmission apiKey pyFloat fid fname existing listDocs db).1
    ∧ sub ∈ (processSingleSubmission apiKey pyFloat fid fname existing listDocs db).1.submissions
    ∧ docsFor (processSingleSubmission apiKey pyFloat fid fname existing listDocs db).1 sub.id
        = docsFor db sub.id
    ∧ scoresFor (processSingleSubmission apiKey pyFloat fid fname existing listDocs db).1 sub.id
        = scoresFor db sub.id := by
  cases existing with
  | some ex =>
    have hnex : ex.id ≠ sub.id := hne ex rfl
    have hwf1 : WF (update_submission_status db ex.id "processing" none) :=
      WF_update_submission db ex.id "processing" none hwf
    have hmem1 : sub ∈ (update_submission_status db ex.id "processing" none).submissions :=
      mem_update_submission_of_ne db ex.id "processing" none hmem
        (fun hcon => hnex (hcon.symm))
    cases listDocs with
    | error e =>
      exact ⟨hwf1, hmem1, rfl, rfl⟩
    | ok docs =>
      exact fold_then_complete_preserves apiKey pyFloat ex.id docs
        (update_submission_status db ex.id "processing" none) sub hwf1 hmem1 hnex
  | none =>
    have hnex : db.nextSubmissionId ≠ sub.id :=
      fun hcon => absurd (hwf.subLt sub hmem) (by omega)
    have hwf1 : WF (create_submission db (applicantName fname)
        (applicantEmail fname) fid "processing").1 :=
      WF_create_submission db _ _ _ _ hwf
    have hmem1 : sub ∈ (create_submission db (applicantName fname)
        (applicantEmail fname) fid "processing").1.submissions :=
      List.mem_append_left _ hmem
    cases listDocs with
    | error e =>
      exact ⟨hwf1, hmem1, rfl, rfl⟩
    | ok docs =>
      exact fold_then_complete_preserves apiKey pyFloat db.nextSubmissionId docs
        (create_submission db (applicantName fname)
          (applicantEmail fname) fid "processing").1 sub hwf1 hmem1 hnex

theorem processFolder_preserves (apiKey : Bool)
    (pyFloat : List Char → Option Rat) (db : DB) (ids : List Nat) (f : Folder)
    (sub : SubmissionRec) (hwf : WF db) (hmem : sub ∈ db.submissions)
    (hst : sub.status = "completed") :
    WF (processFolder apiKey pyFloat (db, ids) f).1
    ∧ sub ∈ (processFolder apiKey pyFloat (db, ids) f).1.submissions
    ∧ docsFor (processFolder apiKey pyFloat (db, ids) f).1 sub.id
        = docsFor db sub.id
    ∧ scoresFor (processFolder apiKey pyFloat (db, ids) f).1 sub.id
        = scoresFor db sub.id := by
  unfold processFolder
  dsimp only
  cases hfind : get_submission_by_folder_id db f.id with
  | none =>
    obtain ⟨h1, h2, h3, h4⟩ := processSingleSubmission_preserves apiKey pyFloat
      f.id f.name none f.listDocs db sub hwf hmem (fun ex hex => nomatch hex)
    cases hres : processSingleSubmission apiKey pyFloat f.id f.name none f.listDocs db with
    | mk db1 r =>
      cases r with
      | ok sid =>
        rw [hres] at h1 h2 h3 h4
        exact ⟨h1, h2, h3, h4⟩
      | error e =>
        rw [hres] at h1 h2 h3 h4
        exact ⟨h1, h2, h3, h4⟩
  | some ex =>
    dsimp only
    by_cases hskip : ex.status = "completed" ∨ ex.status = "processing"
    · rw [if_pos hskip]
      exact ⟨hwf, hmem, rfl, rfl⟩
    · rw [if_neg hskip]
      have hexmem : ex ∈ db.submissions := List.mem_of_find?_eq_some hfind
      have hnex : ex.id ≠ sub.id := by
        intro hcon
        have hex : ex = sub := hwf.subInj ex hexmem sub hmem hcon
        exact hskip (Or.inl (by rw [hex, hst]))
      obtain ⟨h1, h2, h3, h4⟩ := processSingleSubmission_preserves apiKey pyFloat
        f.id f.name (some ex) f.listDocs db sub hwf hmem
        (fun ex' hex' => by rw [← Option.some_inj.mp hex']; exact hnex)
      cases hres : processSingleSubmission apiKey pyFloat f.id f.name (some ex)
          f.listDocs db with
      | mk db1 r =>
        cases r with
        | ok sid =>
          rw [hres] at h1 h2 h3 h4
          exact ⟨h1, h2, h3, h4⟩
        | error e =>
          rw [hres] at h1 h2 h3 h4
          refine ⟨WF_update_submission db1 ex.id "error" (some e) h1, ?_, h3, h4⟩
          exact mem_update_submission_of_ne db1 ex.id "error" (some e) h2
            (fun hcon => hnex hcon.symm)

theorem processFoldAll_preserves (apiKey : Bool)
    (pyFloat : List Char → Option Rat) (folders : List Folder) :
    ∀ (db : DB) (ids : List Nat) (sub : SubmissionRec),
      WF db → sub ∈ db.submissions → sub.status = "completed" →
      sub ∈ (folders.foldl (processFolder apiKey pyFloat) (db, ids)).1.submissions
      ∧ docsFor (folders.foldl (processFolder apiKey pyFloat) (db, ids)).1 sub.id
          = docsFor db sub.id
      ∧ scoresFor (folders.foldl (processFolder apiKey pyFloat) (db, ids)).1 sub.id
          = scoresFor db sub.id := by
  induction folders with
  | nil =>
    intro db ids sub hwf hmem hst
    exact ⟨hmem, rfl, rfl⟩
  | cons f t ih =>
    intro db ids sub hwf hmem hst
    obtain ⟨h1, h2, h3, h4⟩ := processFolder_preserves apiKey pyFloat db ids f sub
      hwf hmem hst
    rw [List.foldl_cons]
    obtain ⟨hm, hd, hs⟩ := ih (processFolder apiKey pyFloat (db, ids) f).1
      (processFolder apiKey pyFloat (db, ids) f).2 sub h1 h2 hst
    exact ⟨hm, hd.trans h3, hs.trans h4⟩

/-- C2: idempotency of the batch processor.  First, a folder whose stored
record is already `completed` or `processing` is skipped: the batch-loop
iteration returns the store and the id list unchanged.  Second, across a
whole run on a well-formed store, a submission whose record is `completed`
at the start keeps its exact record (in particular its status), and its
Document and Score rows are exactly those it started with — no new rows
are created for it. -/
theorem completed_submission_skip_idempotent :
    (∀ (apiKey : Bool) (pyFloat : List Char → Option Rat) (db : DB)
        (ids : List Nat) (f : Folder) (ex : SubmissionRec),
      get_submission_by_folder_id db f.id = some ex →
      ex.status = "completed" ∨ ex.status = "processing" →
      processFolder apiKey pyFloat (db, ids) f = (db, ids))
    ∧ (∀ (apiKey : Bool) (pyFloat : List Char → Option Rat) (db : DB)
        (folders : List Folder) (sub : SubmissionRec),
      WF db → sub ∈ db.submissions → sub.status = "completed" →
      sub ∈ (process_submissions apiKey pyFloat db folders).1.submissions
      ∧ docsFor (process_submissions apiKey pyFloat db folders).1 sub.id
          = docsFor db sub.id
      ∧ scoresFor (process_submissions apiKey pyFloat db folders).1 sub.id
          = scoresFor db sub.id) := by
  constructor
  · intro apiKey pyFloat db ids f ex hfind hskip
    simp only [processFolder, hfind, if_pos hskip]
  · intro apiKey pyFloat db folders sub hwf hmem hst
    exact processFoldAll_preserves apiKey pyFloat folders db [] sub hwf hmem hst

/-- Witness for C2 on a one-folder batch whose stored record is already
completed: the iteration is the identity and the run leaves the record and
its (empty) rows unchanged. -/
theorem completed_submission_skip_idempotent_witness :
    processFolder false pyFloatInt
        (⟨[⟨1, "A", "B", "fid", "completed", none⟩], [], [], 2, 1, 1⟩, [])
        ⟨"fid", "A - B", .ok []⟩
      = (⟨[⟨1, "A", "B", "fid", "completed", none⟩], [], [], 2, 1, 1⟩, [])
    ∧ (⟨1, "A", "B", "fid", "completed", none⟩ : SubmissionRec)
        ∈ (process_submissions false pyFloatInt
            ⟨[⟨1, "A", "B", "fid", "completed", none⟩], [], [], 2, 1, 1⟩
            [⟨"fid", "A - B", .ok []⟩]).1.submissions :=
  ⟨completed_submission_skip_idempotent.1 false pyFloatInt
      ⟨[⟨1, "A", "B", "fid", "completed", none⟩], [], [], 2, 1, 1⟩ []
      ⟨"fid", "A - B", .ok []⟩ ⟨1, "A", "B", "fid", "completed", none⟩
      rfl (Or.inl rfl),
    (completed_submission_skip_idempotent.2 false pyFloatInt
      ⟨[⟨1, "A", "B", "fid", "completed", none⟩], [], [], 2, 1, 1⟩
      [⟨"fid", "A - B", .ok []⟩] ⟨1, "A", "B", "fid", "completed", none⟩
      ⟨by decide, by decide, by decide⟩ (by decide) rfl).1⟩

theorem update_submission_status_error_all (db : DB) (sid : Nat) (st e : String)
    (he : e ≠ "") :
    ∀ s ∈ (update_submission_status db sid st (some e)).submissions,
      s.id = sid → s.status = st ∧ s.errorMessage = some e := by
  intro s hs hid
  unfold update_submission_status at hs
  dsimp only at hs
  obtain ⟨s0, hs0, rfl⟩ := List.mem_map.mp hs
  by_cases h0 : s0.id = sid
  · simp [h0, he]
  · exfalso
    apply h0
    simpa [h0] using hid

/-- C1 counterexample: a batch containing a single new folder whose
document listing raises leaves the freshly created submission in status
`processing` — it is never set to `error`, because the error handler only
writes a status when a record existed before this invocation. -/
theorem new_submission_error_status_cex :
    (process_submissions false pyFloatInt ⟨[], [], [], 1, 1, 1⟩
        [⟨"folder-1", "John Doe - john@example.com", .error "boom"⟩]).1.submissions
      = [⟨1, "John Doe", "john@example.com", "folder-1", "processing", none⟩]
    ∧ ("processing" : String) ≠ "error" :=
  ⟨rfl, by decide⟩

/-- C1 amended: when an exception escapes per-submission processing, the
batch loop continues with the next folder in every case; a submission that
already had a stored record (not completed or in flight) has its status set
to `error` with the exception text as `error_message` (the text is written
only when non-empty, per the store's truthiness check); but a submission
newly created during this invocation is left in status `processing` — no
error status is written for it. -/
theorem batch_error_marking_amended :
    (∀ (apiKey : Bool) (pyFloat : List Char → Option Rat) (db : DB)
        (ids : List Nat) (f : Folder) (ex : SubmissionRec) (e : String),
      f.listDocs = .error e → e ≠ "" →
      get_submission_by_folder_id db f.id = some ex →
      ¬(ex.status = "completed" ∨ ex.status = "processing") →
      ex ∈ db.submissions →
      (processFolder apiKey pyFloat (db, ids) f).2 = ids
      ∧ (∃ s ∈ (processFolder apiKey pyFloat (db, ids) f).1.submissions,
          s.id = ex.id ∧ s.status = "error" ∧ s.errorMessage = some e)
      ∧ (∀ s ∈ (processFolder apiKey pyFloat (db, ids) f).1.submissions,
          s.id = ex.id → s.status = "error" ∧ s.errorMessage = some e))
    ∧ (∀ (apiKey : Bool) (pyFloat : List Char → Option Rat) (db : DB)
        (ids : List Nat) (f : Folder) (e : String),
      f.listDocs = .error e →
      get_submission_by_folder_id db f.id = none →
      (processFolder apiKey pyFloat (db, ids) f).2 = ids
      ∧ (processFolder apiKey pyFloat (db, ids) f).1.submissions
          = db.submissions ++
            [⟨db.nextSubmissionId, applicantName f.name, applicantEmail f.name,
              f.id, "processing", none⟩])
    ∧ (∀ (apiKey : Bool) (pyFloat : List Char → Option Rat) (db : DB)
        (f : Folder) (rest : List Folder),
      process_submissions apiKey pyFloat db (f :: rest)
        = rest.foldl (processFolder apiKey pyFloat)
            (processFolder apiKey pyFloat (db, []) f)) := by
  refine ⟨?_, ?_, fun _ _ _ _ _ => rfl⟩
  · intro apiKey pyFloat db ids f ex e hld he hfind hskip hexmem
    have hres : processFolder apiKey pyFloat (db, ids) f
        = (update_submission_status
            (update_submission_status db ex.id "processing" none)
            ex.id "error" (some e), ids) := by
      simp only [processFolder, hfind, if_neg hskip, processSingleSubmission, hld]
    rw [hres]
    refine ⟨rfl, ?_, ?_⟩
    · obtain ⟨s1, hs1, hid1, hst1, hmsg1⟩ :=
        update_submission_status_mem_intro db ex.id "processing" none hexmem rfl
      obtain ⟨s2, hs2, hid2, hst2, hmsg2⟩ :=
        update_submission_status_mem_intro
          (update_submission_status db ex.id "processing" none)
          ex.id "error" (some e) hs1 hid1
      refine ⟨s2, hs2, hid2, hst2, ?_⟩
      rw [hmsg2]
      simp [he]
    · exact update_submission_status_error_all _ ex.id "error" e he
  · intro apiKey pyFloat db ids f e hld hfind
    have hres : processFolder apiKey pyFloat (db, ids) f
        = ((create_submission db (applicantName f.name) (applicantEmail f.name)
            f.id "processing").1, ids) := by
      simp only [processFolder, hfind, processSingleSubmission, hld]
    rw [hres]
    exact ⟨rfl, rfl⟩

/-- Witness for the amended C1: an existing errored record is re-marked
`error` with the new exception text, and a new folder's failing listing
leaves the created submission in `processing`; both at concrete inputs. -/
theorem batch_error_marking_amended_witness :
    ((processFolder false pyFloatInt
        (⟨[⟨7, "A", "B", "fid2", "error", some "old"⟩], [], [], 8, 1, 1⟩, [])
        ⟨"fid2", "Jane Roe - jane@x.com", .error "boom"⟩).2 = []
      ∧ (∃ s ∈ (processFolder false pyFloatInt
          (⟨[⟨7, "A", "B", "fid2", "error", some "old"⟩], [], [], 8, 1, 1⟩, [])
          ⟨"fid2", "Jane Roe - jane@x.com", .error "boom"⟩).1.submissions,
          s.id = 7 ∧ s.status = "error" ∧ s.errorMessage = some "boom")
      ∧ (∀ s ∈ (processFolder false pyFloatInt
          (⟨[⟨7, "A", "B", "fid2", "error", some "old"⟩], [], [], 8, 1, 1⟩, [])
          ⟨"fid2", "Jane Roe - jane@x.com", .error "boom"⟩).1.submissions,
          s.id = 7 → s.status = "error" ∧ s.errorMessage = some "boom"))
    ∧ ((processFolder false pyFloatInt (⟨[], [], [], 1, 1, 1⟩, [])
          ⟨"folder-1", "John Doe - john@example.com", .error "boom"⟩).2 = []
      ∧ (processFolder false pyFloatInt (⟨[], [], [], 1, 1, 1⟩, [])
          ⟨"folder-1", "John Doe - john@example.com", .error "boom"⟩).1.submissions
        = [] ++ [⟨1, "John Doe", "john@example.com", "folder-1", "processing", none⟩]) :=
  ⟨batch_error_marking_amended.1 false pyFloatInt
      ⟨[⟨7, "A", "B", "fid2", "error", some "old"⟩], [], [], 8, 1, 1⟩ []
      ⟨"fid2", "Jane Roe - jane@x.com", .error "boom"⟩
      ⟨7, "A", "B", "fid2", "error", some "old"⟩ "boom"
      rfl (by decide) rfl (by decide) (by decide),
    batch_error_marking_amended.2.1 false pyFloatInt ⟨[], [], [], 1, 1, 1⟩ []
      ⟨"folder-1", "John Doe - john@example.com", .error "boom"⟩ "boom" rfl rfl⟩

theorem processDocument_ok_result (apiKey : Bool)
    (pyFloat : List Char → Option Rat) (sid : Nat) (d : DocMeta) (db : DB)
    (hdoc : ∀ x ∈ db.documents, x.id < db.nextDocumentId)
    (hok : d.dbFail = DocDbFail.ok) :
    ∃ row ∈ (processDocument apiKey pyFloat sid d db).documents,
      row.id = db.nextDocumentId ∧ row.submissionId = sid
      ∧ row.driveId = d.id ∧ row.name = d.name ∧ row.processed = true
      ∧ row.category = classify d.name d.mimeType (contentOf d)
      ∧ ((classify d.name d.mimeType (contentOf d) ≠ "other" ∧ contentOf d ≠ "") →
          ∃ sc ∈ (processDocument apiKey pyFloat sid d db).scores,
            sc.submissionId = sid ∧ sc.documentId = row.id) := by
  have hold : ∀ x ∈ db.documents, x.id ≠ db.nextDocumentId :=
    fun x hx => Nat.ne_of_lt (hdoc x hx)
  set category := classify d.name d.mimeType (contentOf d) with hcat
  set g := grade_document apiKey d.aiOutcome pyFloat category (contentOf d) d.name
    with hg
  set row0 : DocumentRec :=
    ⟨db.nextDocumentId, sid, d.name, d.id, d.mimeType, category, d.size, false⟩
    with hrow0
  set rowT : DocumentRec :=
    ⟨db.nextDocumentId, sid, d.name, d.id, d.mimeType, category, d.size, true⟩
    with hrowT
  set sRow : ScoreRec :=
    ⟨db.nextScoreId, sid, db.nextDocumentId, g.category, g.total_score,
      g.max_score, g.criteria_scores, g.feedback⟩ with hsRow
  have hupd := docsAppendUpdate db.documents row0 db.nextDocumentId rfl hold
  have hrowT' : ({ row0 with processed := true } : DocumentRec) = rowT := rfl
  rw [hrowT'] at hupd
  by_cases hcond : category ≠ "other" ∧ contentOf d ≠ ""
  · have hdb' : processDocument apiKey pyFloat sid d db
        = { db with
              documents := db.documents ++ [rowT]
              scores := db.scores ++ [sRow]
              nextDocumentId := db.nextDocumentId + 1
              nextScoreId := db.nextScoreId + 1 } := by
      simp only [processDocument, hok, ← hcat, ← hg, if_pos hcond,
        update_document_processed, create_score, create_document]
      rw [hupd]
    refine ⟨rowT, by rw [hdb']; exact List.mem_append_right _ (by simp),
      rfl, rfl, rfl, rfl, rfl, rfl, fun _ => ?_⟩
    exact ⟨sRow, by rw [hdb']; exact List.mem_append_right _ (by simp), rfl, rfl⟩
  · have hdb' : processDocument apiKey pyFloat sid d db
        = { db with
              documents := db.documents ++ [rowT]
              nextDocumentId := db.nextDocumentId + 1 } := by
      simp only [processDocument, hok, ← hcat, if_neg hcond,
        update_document_processed, create_document]
      rw [hupd]
    exact ⟨rowT, by rw [hdb']; exact List.mem_append_right _ (by simp),
      rfl, rfl, rfl, rfl, rfl, rfl, fun hc => absurd hc hcond⟩

theorem processDocsFold_rows (apiKey : Bool) (pyFloat : List Char → Option Rat)
    (sid : Nat) (docs : List DocMeta) :
    ∀ db : DB, (∀ x ∈ db.documents, x.id < db.nextDocumentId) →
      ∀ d ∈ docs, d.dbFail = DocDbFail.ok →
        ∃ row ∈ (docs.foldl (fun acc d' => processDocument apiKey pyFloat sid d' acc) db).documents,
          row.submissionId = sid ∧ row.driveId = d.id ∧ row.name = d.name
          ∧ row.processed = true
          ∧ row.category = classify d.name d.mimeType (contentOf d)
          ∧ ((classify d.name d.mimeType (contentOf d) ≠ "other" ∧ contentOf d ≠ "") →
              ∃ sc ∈ (docs.foldl (fun acc d' => processDocument apiKey pyFloat sid d' acc) db).scores,
                sc.submissionId = sid ∧ sc.documentId = row.id) := by
  induction docs with
  | nil =>
    intro db hdoc d hd
    exact absurd hd (List.not_mem_nil d)
  | cons d0 t ih =>
    intro db hdoc d hd hok
    have hbound1 : ∀ x ∈ (processDocument apiKey pyFloat sid d0 db).documents,
        x.id < (processDocument apiKey pyFloat sid d0 db).nextDocumentId := by
      obtain ⟨r1, s1, hd1, hs1, hr1, hsc1, hsub1, hnext1, hmono1, hlt1⟩ :=
        processDocument_shape apiKey pyFloat sid d0 db hdoc
      intro x hx
      rw [hd1] at hx
      rcases List.mem_append.mp hx with hx1 | hx2
      · exact lt_of_lt_of_le (hdoc x hx1) hmono1
      · exact hlt1 x hx2
    rw [List.foldl_cons]
    rcases List.mem_cons.mp hd with rfl | hdt
    · -- the document at the head of the list
      obtain ⟨row, hrow, hrid, hrsub, hrdrive, hrname, hrproc, hrcat, hrsc⟩ :=
        processDocument_ok_result apiKey pyFloat sid d db hdoc hok
      obtain ⟨rows, srows, hd2, hs2, hr2, hsc2, hsub2, hnext2, hbound2⟩ :=
        processDocsFold_facts apiKey pyFloat sid t
          (processDocument apiKey pyFloat sid d db) hbound1
      refine ⟨row, by rw [hd2]; exact List.mem_append_left _ hrow,
        hrsub, hrdrive, hrname, hrproc, hrcat, fun hc => ?_⟩
      obtain ⟨sc, hscmem, hsc1, hsc2'⟩ := hrsc hc
      exact ⟨sc, by rw [hs2]; exact List.mem_append_left _ hscmem, hsc1, hsc2'⟩
    · exact ih (processDocument apiKey pyFloat sid d0 db) hbound1 d hdt hok

/-- C3: document-level fault isolation.  For a submission whose document
list is `pre ++ bad :: post`, where the documents of `pre` and `post`
process normally (no persistence exception) and `bad` is arbitrary (it may
fail at extraction or at any persistence call), the submission handler
returns successfully, the submission's record ends the run with status
`completed`, and every normal document has a Document row created and
marked processed, with a Score row attached whenever its category is not
the fallback and its extracted content is non-empty. -/
theorem document_fault_isolation (apiKey : Bool)
    (pyFloat : List Char → Option Rat) (folderId folderName : String)
    (existing : Option SubmissionRec) (db : DB)
    (pre post : List DocMeta) (bad : DocMeta)
    (hdoc : ∀ x ∈ db.documents, x.id < db.nextDocumentId)
    (hex : ∀ ex, existing = some ex → ex ∈ db.submissions)
    (hnormal : ∀ d ∈ pre ++ post, d.dbFail = DocDbFail.ok) :
    ∃ sid,
      (processSingleSubmission apiKey pyFloat folderId folderName existing
        (.ok (pre ++ bad :: post)) db).2 = .ok sid
      ∧ (∃ s ∈ (processSingleSubmission apiKey pyFloat folderId folderName existing
          (.ok (pre ++ bad :: post)) db).1.submissions,
          s.id = sid ∧ s.status = "completed")
      ∧ (∀ s ∈ (processSingleSubmission apiKey pyFloat folderId folderName existing
          (.ok (pre ++ bad :: post)) db).1.submissions,
          s.id = sid → s.status = "completed")
      ∧ (∀ d ∈ pre ++ post,
          ∃ row ∈ (processSingleSubmission apiKey pyFloat folderId folderName existing
            (.ok (pre ++ bad :: post)) db).1.documents,
            row.submissionId = sid ∧ row.driveId = d.id ∧ row.name = d.name
            ∧ row.processed = true
            ∧ row.category = classify d.name d.mimeType (contentOf d)
            ∧ ((classify d.name d.mimeType (contentOf d) ≠ "other"
                ∧ contentOf d ≠ "") →
                ∃ sc ∈ (processSingleSubmission apiKey pyFloat folderId folderName
                  existing (.ok (pre ++ bad :: post)) db).1.scores,
                  sc.submissionId = sid ∧ sc.documentId = row.id)) := by
  have hmemdocs : ∀ d ∈ pre ++ post, d ∈ pre ++ bad :: post := by
    intro d hd
    rcases List.mem_append.mp hd with h1 | h2
    · exact List.mem_append_left _ h1
    · exact List.mem_append_right _ (List.mem_cons_of_mem bad h2)
  cases existing with
  | some ex =>
    have hexmem : ex ∈ db.submissions := hex ex rfl
    have hres : processSingleSubmission apiKey pyFloat folderId folderName
        (some ex) (.ok (pre ++ bad :: post)) db
        = (update_submission_status
            ((pre ++ bad :: post).foldl
              (fun acc d => processDocument apiKey pyFloat ex.id d acc)
              (update_submission_status db ex.id "processing" none))
            ex.id "completed" none, .ok ex.id) := by
      simp only [processSingleSubmission]
    set db1 := update_submission_status db ex.id "processing" none with hdb1
    set db2 := (pre ++ bad :: post).foldl
      (fun acc d => processDocument apiKey pyFloat ex.id d acc) db1 with hdb2
    have hbound1 : ∀ x ∈ db1.documents, x.id < db1.nextDocumentId := hdoc
    obtain ⟨rows, srows, hd2, hs2, hr2, hsc2, hsub2, hnext2, hbound2⟩ :=
      processDocsFold_facts apiKey pyFloat ex.id (pre ++ bad :: post) db1 hbound1
    obtain ⟨ex1, hex1, hexid1, hexst1, hexmsg1⟩ :=
      update_submission_status_mem_intro db ex.id "processing" none hexmem rfl
    refine ⟨ex.id, by rw [hres], ?_, ?_, ?_⟩
    · rw [hres]
      obtain ⟨s, hs, hsid, hsst, -⟩ :=
        update_submission_status_mem_intro db2 ex.id "completed" none
          (by rw [hsub2]; exact hex1) hexid1
      exact ⟨s, hs, hsid, hsst⟩
    · rw [hres]
      exact update_submission_status_sets db2 ex.id "completed" none
    · intro d hd
      obtain ⟨row, hrow, hrest⟩ := processDocsFold_rows apiKey pyFloat ex.id
        (pre ++ bad :: post) db1 hbound1 d (hmemdocs d hd)
        (hnormal d hd)
      rw [hres]
      refine ⟨row, hrow, hrest.1, hrest.2.1, hrest.2.2.1, hrest.2.2.2.1,
        hrest.2.2.2.2.1, fun hc => ?_⟩
      exact hrest.2.2.2.2.2 hc
  | none =>
    have hres : processSingleSubmission apiKey pyFloat folderId folderName
        none (.ok (pre ++ bad :: post)) db
        = (update_submission_status
            ((pre ++ bad :: post).foldl
              (fun acc d => processDocument apiKey pyFloat db.nextSubmissionId d acc)
              (create_submission db (applicantName folderName)
                (applicantEmail folderName) folderId "processing").1)
            db.nextSubmissionId "completed" none, .ok db.nextSubmissionId) := by
      simp only [processSingleSubmission, create_submission]
    set db1 := (create_submission db (applicantName folderName)
      (applicantEmail folderName) folderId "processing").1 with hdb1
    set db2 := (pre ++ bad :: post).foldl
      (fun acc d => processDocument apiKey pyFloat db.nextSubmissionId d acc) db1
      with hdb2
    have hbound1 : ∀ x ∈ db1.documents, x.id < db1.nextDocumentId := hdoc
    obtain ⟨rows, srows, hd2, hs2, hr2, hsc2, hsub2, hnext2, hbound2⟩ :=
      processDocsFold_facts apiKey pyFloat db.nextSubmissionId
        (pre ++ bad :: post) db1 hbound1
    have hnewmem : (⟨db.nextSubmissionId, applicantName folderName,
        applicantEmail folderName, folderId, "processing", none⟩ : SubmissionRec)
        ∈ db1.submissions := List.mem_append_right _ (by simp)
    refine ⟨db.nextSubmissionId, by rw [hres], ?_, ?_, ?_⟩
    · rw [hres]
      obtain ⟨s, hs, hsid, hsst, -⟩ :=
        update_submission_status_mem_intro db2 db.nextSubmissionId "completed" none
          (by rw [hsub2]; exact hnewmem) rfl
      exact ⟨s, hs, hsid, hsst⟩
    · rw [hres]
      exact update_submission_status_sets db2 db.nextSubmissionId "completed" none
    · intro d hd
      obtain ⟨row, hrow, hrest⟩ := processDocsFold_rows apiKey pyFloat
        db.nextSubmissionId (pre ++ bad :: post) db1 hbound1 d (hmemdocs d hd)
        (hnormal d hd)
      rw [hres]
      refine ⟨row, hrow, hrest.1, hrest.2.1, hrest.2.2.1, hrest.2.2.2.1,
        hrest.2.2.2.2.1, fun hc => ?_⟩
      exact hrest.2.2.2.2.2 hc

/-- Witness for C3: a new submission with one normally-processing essay
document and one document whose Document-row insert raises. -/
theorem document_fault_isolation_witness :
    ∃ sid,
      (processSingleSubmission false pyFloatInt "fid1" "John Doe - john@x.com" none
        (.ok ([⟨"d1", "essay.pdf", "application/pdf", 10, .ok "my essay text",
          DocDbFail.ok, .ok ""⟩] ++
          ⟨"d2", "t.pdf", "application/pdf", 5, .ok "x",
            DocDbFail.atCreateDocument, .ok ""⟩ :: []))
        ⟨[], [], [], 1, 1, 1⟩).2 = .ok sid
      ∧ (∃ s ∈ (processSingleSubmission false pyFloatInt "fid1"
          "John Doe - john@x.com" none
          (.ok ([⟨"d1", "essay.pdf", "application/pdf", 10, .ok "my essay text",
            DocDbFail.ok, .ok ""⟩] ++
            ⟨"d2", "t.pdf", "application/pdf", 5, .ok "x",
              DocDbFail.atCreateDocument, .ok ""⟩ :: []))
          ⟨[], [], [], 1, 1, 1⟩).1.submissions,
          s.id = sid ∧ s.status = "completed")
      ∧ (∀ s ∈ (processSingleSubmission false pyFloatInt "fid1"
          "John Doe - john@x.com" none
          (.ok ([⟨"d1", "essay.pdf", "application/pdf", 10, .ok "my essay text",
            DocDbFail.ok, .ok ""⟩] ++
            ⟨"d2", "t.pdf", "application/pdf", 5, .ok "x",
              DocDbFail.atCreateDocument, .ok ""⟩ :: []))
          ⟨[], [], [], 1, 1, 1⟩).1.submissions,
          s.id = sid → s.status = "completed")
      ∧ (∀ d ∈ [(⟨"d1", "essay.pdf", "application/pdf", 10, .ok "my essay text",
            DocDbFail.ok, .ok ""⟩ : DocMeta)] ++ [],
          ∃ row ∈ (processSingleSubmission false pyFloatInt "fid1"
            "John Doe - john@x.com" none
            (.ok ([⟨"d1", "essay.pdf", "application/pdf", 10, .ok "my essay text",
              DocDbFail.ok, .ok ""⟩] ++
              ⟨"d2", "t.pdf", "application/pdf", 5, .ok "x",
                DocDbFail.atCreateDocument, .ok ""⟩ :: []))
            ⟨[], [], [], 1, 1, 1⟩).1.documents,
            row.submissionId = sid ∧ row.driveId = d.id ∧ row.name = d.name
            ∧ row.processed = true
            ∧ row.category = classify d.name d.mimeType (contentOf d)
            ∧ ((classify d.name d.mimeType (contentOf d) ≠ "other"
                ∧ contentOf d ≠ "") →
                ∃ sc ∈ (processSingleSubmission false pyFloatInt "fid1"
                  "John Doe - john@x.com" none
                  (.ok ([⟨"d1", "essay.pdf", "application/pdf", 10,
                    .ok "my essay text", DocDbFail.ok, .ok ""⟩] ++
                    ⟨"d2", "t.pdf", "application/pdf", 5, .ok "x",
                      DocDbFail.atCreateDocument, .ok ""⟩ :: []))
                  ⟨[], [], [], 1, 1, 1⟩).1.scores,
                  sc.submissionId = sid ∧ sc.documentId = row.id)) :=
  document_fault_isolation false pyFloatInt "fid1" "John Doe - john@x.com" none
    ⟨[], [], [], 1, 1, 1⟩
    [⟨"d1", "essay.pdf", "application/pdf", 10, .ok "my essay text",
      DocDbFail.ok, .ok ""⟩] []
    ⟨"d2", "t.pdf", "application/pdf", 5, .ok "x",
      DocDbFail.atCreateDocument, .ok ""⟩
    (by simp) (fun ex hex => nomatch hex)
    (by intro d hd; simp at hd; subst hd; rfl)
